import Mathlib

/-!
Verification of the deep-research workflow core (`src/backend` and
`src/python_backend` of the repository) against its specification.

The development shallowly embeds, from the source:

* the string manipulation of `write_report` (src/backend/deepresearch/nodes.py,
  lines 287-313): the regex scan `re.findall(r'\[(.*?)\]')`, Python's
  `uuid.UUID(s, version=4)` validity check, `str.replace`-based renumbering of
  citation markers, and the generated Sources appendix;
* the persisted search-result cache (src/python_backend/src/results_db.py):
  `get_search_result` / `save_search_result` over a keyed store whose payload
  column may hold an unparseable blob;
* `SearchTools.perform_search` (src/backend/deepresearch/tools.py) with its
  optional Redis layer and its catch-all error handling;
* the `perform_search` node and the fan-out batch (src/backend/deepresearch/
  nodes.py), and the LangGraph state machine of src/backend/deepresearch/
  graph.py together with the driver of src/backend/main.py, as an explicit
  step function with checkpoints written at every node boundary.

External collaborators (LLM calls, the search provider) are deterministic
parameters; calls that may fail in the source are modelled in `Except`.
-/

namespace DeepResearch


/-! ## Character-list utilities -/

/-- Character lists model Python strings for the scanning/replacing code. -/

abbrev Chars := List Char

/-- Naive substring test: does `pat` occur inside `s`?  Mirrors Python's
`pat in s` / `str.find` success. -/

def containsSub (pat : Chars) : Chars → Bool
  | [] => pat.isEmpty
  | c :: rest => pat.isPrefixOf (c :: rest) || containsSub pat rest

/-- `'[' :: t ++ [']']`: the bracketed form of a token, the exact substring
`f'[{t}]'` that the source builds around a citation id. -/

def brak (t : Chars) : Chars := '[' :: (t ++ [']'])

/-- A token is bracket-free when it contains neither `'['` nor `']'`. -/

def BFree (t : Chars) : Prop := '[' ∉ t ∧ ']' ∉ t

/-! ## `re.findall(r'\[(.*?)\]', report)`

The regex scan of `write_report`: non-greedy bracketed tokens, found left to
right; `.` does not match a newline, so a token never spans a newline nor a
`']'`.  The scan is a single pass: while inside an open bracket the characters
are accumulated; a `']'` emits the token; a newline (or the end of input)
discards the pending open bracket exactly as the failing regex match does. -/

def findTokensGo : Option Chars → Chars → List Chars
  | _, [] => []
  | none, c :: rest =>
    if c = '[' then findTokensGo (some []) rest else findTokensGo none rest
  | some acc, c :: rest =>
    if c = ']' then acc.reverse :: findTokensGo none rest
    else if c = '\n' then findTokensGo none rest
    else findTokensGo (some (c :: acc)) rest

/-- All tokens captured by `re.findall(r'\[(.*?)\]', s)`, in order. -/

def findTokens (s : Chars) : List Chars := findTokensGo none s

/-! ## `str.replace(pat, repl)`

Python's `str.replace`: scan left to right, replace each non-overlapping
occurrence of `pat`.  The source only ever replaces nonempty bracketed
patterns, so the empty pattern is mapped to the identity. -/

def replaceAllGo (pat repl : Chars) : Nat → Chars → Chars
  | _, [] => []
  | 0, s => s
  | fuel + 1, c :: t =>
    if pat.isPrefixOf (c :: t) then
      repl ++ replaceAllGo pat repl fuel (List.drop (pat.length - 1) t)
    else
      c :: replaceAllGo pat repl fuel t

/-- `s.replace(pat, repl)` for nonempty `pat` (the only use in the source). -/

def replaceAll (pat repl s : Chars) : Chars :=
  if pat.isEmpty then s else replaceAllGo pat repl s.length s

/-! ## Decimal rendering of `str(i)` and Python's `int(s, 16)` -/

/-- One decimal digit as a character (`n` is always `< 10` where used). -/

def digitChar : Nat → Char
  | 0 => '0' | 1 => '1' | 2 => '2' | 3 => '3' | 4 => '4'
  | 5 => '5' | 6 => '6' | 7 => '7' | 8 => '8' | _ => '9'

def natCharsGo : Nat → Nat → Chars
  | 0, _ => []
  | fuel + 1, n =>
    if n < 10 then [digitChar n]
    else natCharsGo fuel (n / 10) ++ [digitChar (n % 10)]

/-- Python's `str(n)` for a nonnegative integer: decimal digits. -/

def natChars (n : Nat) : Chars := natCharsGo (n + 1) n

/-! ## Python `uuid.UUID(s, version=4)`

`uuid.UUID` normalises the string — removing every occurrence of `urn:` and
`uuid:`, stripping `{`/`}` from both ends, removing every `-` — requires the
result to have length 32, and parses it with `int(hex, 16)`.  `int(_, 16)`
tolerates surrounding (ASCII) whitespace, one sign character, an optional
`0x`/`0X` prefix (optionally followed by one underscore), and single
underscores between hexadecimal digits.  With `version=4` no further check is
performed (the version bits are overwritten), so this is the whole predicate
decided by the `try: uuid.UUID(uid_str, version=4) except ValueError` of
`write_report`. -/

def isHexDigitChar (c : Char) : Bool :=
  ('0' ≤ c && c ≤ '9') || ('a' ≤ c && c ≤ 'f') || ('A' ≤ c && c ≤ 'F')

def hexOrUnderscore (c : Char) : Bool := isHexDigitChar c || c = '_'

/-- No two consecutive underscores. -/

def noDoubleUnderscore : Chars → Bool
  | [] => true
  | ['_'] => true
  | '_' :: '_' :: _ => false
  | _ :: rest => noDoubleUnderscore rest

/-- Hexadecimal digit run with single underscores strictly between digits. -/

def hexCoreOk (s : Chars) : Bool :=
  !s.isEmpty && s.all hexOrUnderscore && s.head? != some '_' &&
    s.getLast? != some '_' && noDoubleUnderscore s

/-- Drop characters satisfying `p` from both ends (Python `str.strip`). -/

def stripEnds (p : Char → Bool) (s : Chars) : Chars :=
  ((s.dropWhile p).reverse.dropWhile p).reverse

def isBraceChar (c : Char) : Bool := c = '{' || c = '}'

/-- One optional leading sign character. -/

def dropSign : Chars → Chars
  | '+' :: r => r
  | '-' :: r => r
  | t => t

/-- Strip an optional `0x`/`0X` prefix, which may be followed by one
underscore, leaving the digit run to check. -/

def hexBody : Chars → Chars
  | '0' :: 'x' :: '_' :: r => r
  | '0' :: 'x' :: r => r
  | '0' :: 'X' :: '_' :: r => r
  | '0' :: 'X' :: r => r
  | t => t

/-- Does `int(s, 16)` succeed? -/

def pyIntHex16Ok (s : Chars) : Bool :=
  hexCoreOk (hexBody (dropSign (stripEnds (fun c => c.isWhitespace) s)))

/-- The normalisation performed by `uuid.UUID.__init__` on its hex argument. -/

def uuidNormalize (s : Chars) : Chars :=
  replaceAll ['-'] []
    (stripEnds isBraceChar
      (replaceAll "uuid:".toList [] (replaceAll "urn:".toList [] s)))

/-- Does `uuid.UUID(s, version=4)` succeed? -/

def isValidUUID (s : Chars) : Bool :=
  let h := uuidNormalize s
  h.length == 32 && pyIntHex16Ok h

/-! ## Data model (src/backend/deepresearch/models.py)

`models.py` declares `SearchResultItem(url, title, content)`.
`nodes.py` additionally reads `s.id` on every source item (the context string
of `perform_search` and the `source_dict` of `write_report`); the variant of
the models carrying that field lives in `deepresearch/interactive/models.py`,
which is not under `src/`.  Modelled from the spec: §6 gives every source an
opaque id referenced by inline `[id]` citation markers, so the item carries an
`id` here; with deterministic collaborator stubs the ids are fixed by the
injected searcher. -/

structure SearchResultItem where
  id : String
  url : String
  title : String
  content : String
deriving DecidableEq, Repr

structure ImageSource where
  url : String
  description : Option String
deriving DecidableEq, Repr

structure DeepResearchSearchTask where
  query : String
  research_goal : String
deriving DecidableEq, Repr

structure DeepResearchSearchResult where
  query : String
  research_goal : String
  learnings : List String
  sources : List SearchResultItem
  images : List ImageSource
deriving DecidableEq, Repr

/-- The dict `{"sources": [...], "images": [...]}` returned by
`SearchTools.perform_search` and stored as the cache's `raw_result`. -/

structure ProviderResult where
  sources : List SearchResultItem
  images : List ImageSource
deriving DecidableEq, Repr

/-! ## Persistent store (src/python_backend/src/results_db.py)

The `search_results` table keys `(research_id, query)` to
`(raw_result, learnings)` where `raw_result` is a JSON text column.
`get_search_result` runs `json.loads(row[0])` with no exception handling, so a
row is modelled with its parse outcome: `rawParse = some raw` for a payload
`json.loads` accepts (everything `save_search_result` writes round-trips), and
`rawParse = none` for an unparseable blob, on which `json.loads` raises. -/

structure CacheRow where
  rawParse : Option ProviderResult
  learnings : String
deriving DecidableEq, Repr

/-- The store: search-result cache plus the report table written by
`save_report` (the backend variant of results_db adds it; spec §4.1
`put_report`).  Upserts cons the fresh row; lookups take the newest. -/

structure ResultsDB where
  cache : List ((String × String) × CacheRow)
  reports : List (String × String)
deriving DecidableEq, Repr

inductive DbError
  | jsonDecodeError
deriving DecidableEq, Repr

def lookupCacheRow (db : ResultsDB) (research_id query : String) : Option CacheRow :=
  (db.cache.find? (fun e => decide (e.1 = (research_id, query)))).map (·.2)

/-- `get_search_result(research_id, query)` (results_db.py, lines 46-77):
`SELECT raw_result, learnings`; on a row, `json.loads(row[0])` — which raises
on an unparseable payload — else `None`. -/

def get_search_result (db : ResultsDB) (research_id query : String) :
    Except DbError (Option (ProviderResult × String)) :=
  match lookupCacheRow db research_id query with
  | none => .ok none
  | some row =>
    match row.rawParse with
    | some raw => .ok (some (raw, row.learnings))
    | none => .error .jsonDecodeError

/-- `save_search_result` (results_db.py, lines 79-103): `INSERT OR REPLACE`
keyed by `(research_id, query)`, payload serialised with `json.dumps`. -/

def save_search_result (db : ResultsDB) (research_id query : String)
    (raw : ProviderResult) (learnings : String) : ResultsDB :=
  { db with cache := ((research_id, query), ⟨some raw, learnings⟩) :: db.cache }

/-- `save_report(research_id, text)`: upsert into the report table. -/

def save_report (db : ResultsDB) (research_id text : String) : ResultsDB :=
  { db with reports := (research_id, text) :: db.reports }

/-- Every cache row visible to lookup parses.  `save_search_result` only
writes parseable payloads, so runs preserve this. -/

def ResultsDB.wellFormed (db : ResultsDB) : Prop :=
  ∀ research_id query row, lookupCacheRow db research_id query = some row →
    row.rawParse.isSome

/-! ## External collaborators (spec §6)

Deterministic stubs for the out-of-scope LLM and search-provider adapters.
The search call and the summarizing LLM chain can fail in the source (the
former is wrapped in `try/except` inside `SearchTools.perform_search`, the
latter — `.with_retry(stop_after_attempt=10)` — raises once retries are
exhausted), so both live in `Except`.  `plan_research`,
`generate_queries`/`generate_feedback_queries`, `analyze_research_gaps` and
the report chain are taken as total stubs: their failures abort the run
before any property here is evaluated. -/

structure Collaborators where
  planner : String → String
  queryGen : String → List DeepResearchSearchTask
  feedbackQueryGen : String → String → String → List DeepResearchSearchTask
  searcher : String → Except String ProviderResult
  summarizer : String → String → String → Except String String
  gapAnalyst : String → String → String
  reportWriter : String → String → Nat → String

/-- Runtime configuration (src/backend/deepresearch/configuration.py),
constant for a run since the environment does not change. -/

structure Config where
  feedback_mode : String
  max_feedback_loops : Nat
  report_pages : Nat
  redis_enabled : Bool
  search_provider : String

/-! ## SearchTools.perform_search (src/backend/deepresearch/tools.py, 34-119) -/

/-- The optional Redis layer, keyed `f"{provider}:{query}"`.  Values the tool
itself wrote round-trip through JSON, so they are stored parsed. -/

abbrev RedisCache := List (String × ProviderResult)

def redisKey (cfg : Config) (query : String) : String :=
  cfg.search_provider ++ ":" ++ query

def redisLookup (r : RedisCache) (k : String) : Option ProviderResult :=
  (r.find? (fun e => decide (e.1 = k))).map (·.2)

/-- `SearchTools.perform_search(query)`: Redis cache check first; then the
provider call inside `try: ... except Exception: return {"sources": [],
"images": []}` — a provider failure yields empty lists and skips the Redis
write; a success is written back to Redis when enabled. -/

def SearchTools.perform_search (cfg : Config) (searcher : String → Except String ProviderResult)
    (redis : RedisCache) (query : String) : ProviderResult × RedisCache :=
  match (if cfg.redis_enabled then redisLookup redis (redisKey cfg query) else none) with
  | some cached => (cached, redis)
  | none =>
    match searcher query with
    | .error _ => (⟨[], []⟩, redis)
    | .ok r => (r, if cfg.redis_enabled then (redisKey cfg query, r) :: redis else redis)

/-! ## The perform_search node (src/backend/deepresearch/nodes.py, 114-188) -/

inductive NodeErr
  | jsonDecode
  | summarizerFailed (msg : String)
  | keyError (id : String)
deriving DecidableEq, Repr

/-- The durable state a run touches: the results store plus the Redis cache. -/

structure World where
  db : ResultsDB
  redis : RedisCache
deriving DecidableEq, Repr

/-- The `context_str` built for the summarizing prompt (nodes.py, 154-157). -/

def contextStr (sources : List SearchResultItem) : String :=
  String.intercalate "\n\n" (sources.map (fun s =>
    "<content id=\"" ++ s.id ++ "\" url=\"" ++ s.url ++ "\">\n" ++ s.content ++ "\n</content>"))

/-- The `perform_search` node: cache check via `get_search_result` (whose
`json.loads` failure propagates), on a hit the stored result is reconstructed
with no external call; on a miss the search tool runs, the summarizer chain
runs (its failure propagates and fails the node), and the pair is persisted
with `save_search_result` before the result is returned.  The final `Bool`
instruments whether the external search-and-summarize resolution ran. -/

def perform_search (c : Collaborators) (cfg : Config) (w : World)
    (thread_id : String) (task : DeepResearchSearchTask) :
    Except NodeErr (World × DeepResearchSearchResult × Bool) :=
  match get_search_result w.db thread_id task.query with
  | .error _ => .error .jsonDecode
  | .ok (some (raw, learnings)) =>
    .ok (w, ⟨task.query, task.research_goal, [learnings], raw.sources, raw.images⟩, false)
  | .ok none =>
    let sr := SearchTools.perform_search cfg c.searcher w.redis task.query
    match c.summarizer task.query task.research_goal (contextStr sr.1.sources) with
    | .error e => .error (.summarizerFailed e)
    | .ok learnings =>
      let db2 := save_search_result w.db thread_id task.query sr.1 learnings
      .ok (⟨db2, sr.2⟩,
        ⟨task.query, task.research_goal, [learnings], sr.1.sources, sr.1.images⟩, true)

/-- The fan-out batch: one `perform_search` per `Send` of `route_to_search`
(nodes.py, 322-326).  Concurrency is serialised — the spec leaves the
completion order unspecified and no claim depends on it — and, as in the
LangGraph superstep, a failing task fails the whole batch, committing none of
its channel writes. -/

def runSearchBatch (c : Collaborators) (cfg : Config) (thread_id : String) :
    World → List DeepResearchSearchTask →
    Except NodeErr (World × List DeepResearchSearchResult)
  | w, [] => .ok (w, [])
  | w, t :: ts =>
    match perform_search c cfg w thread_id t with
    | .error e => .error e
    | .ok (w1, r, _) =>
      match runSearchBatch c cfg thread_id w1 ts with
      | .error e => .error e
      | .ok (w2, rs) => .ok (w2, r :: rs)

/-! ## Report synthesis (src/backend/deepresearch/nodes.py, 287-313) -/

/-- `{s.id: s for s in all_sources}` followed by `dict[id]`: on duplicate ids
the later item wins; a missing id raises `KeyError`. -/

def lookupSource (sources : List SearchResultItem) (id : Chars) : Option SearchResultItem :=
  sources.reverse.find? (fun s => decide (s.id.toList = id))

/-- The `uuids` list: bracketed tokens of the report that
`uuid.UUID(_, version=4)` accepts, in order of appearance. -/

def extractUuids (report : Chars) : List Chars :=
  (findTokens report).filter isValidUUID

/-- `for i, uuid in enumerate(uuids): report = report.replace(f'[{uuid}]',
f'[{i+1}]')`, with `k` the renumbering origin (1 at the top level). -/

def renumberFrom (k : Nat) : List Chars → Chars → Chars
  | [], r => r
  | u :: us, r => renumberFrom (k + 1) us (replaceAll (brak u) (brak (natChars k)) r)

def renumberBody (uuids : List Chars) (report : Chars) : Chars :=
  renumberFrom 1 uuids report

/-- One appendix line `f"- [{i+1}] [{title}]({url})"`. -/

def sourceLine (k : Nat) (s : SearchResultItem) : Chars :=
  "- ".toList ++ brak (natChars k) ++ " ".toList ++ brak s.title.toList ++
    "(".toList ++ s.url.toList ++ ")".toList

/-- The appendix lines, one per extracted id in order; a missing id raises
`KeyError` exactly as `source_dict[uuid]` does. -/

def sourcesSectionGo (sources : List SearchResultItem) (k : Nat) :
    List Chars → Except NodeErr (List Chars)
  | [] => .ok []
  | u :: us =>
    match lookupSource sources u with
    | none => .error (.keyError u.asString)
    | some s =>
      match sourcesSectionGo sources (k + 1) us with
      | .error e => .error e
      | .ok lines => .ok (sourceLine k s :: lines)

def joinLines : List Chars → Chars
  | [] => []
  | [l] => l
  | l :: ls => l ++ '\n' :: joinLines ls

/-- The post-processing of `write_report` after the report chain returns:
extract the valid-UUID citation tokens, renumber their bracketed markers to
`[1..N]` in first-appearance order, and append
`"\n\n## Sources\n\n" + "\n".join(lines)`. -/

def write_report_post (sources : List SearchResultItem) (report : Chars) :
    Except NodeErr Chars :=
  let uuids := extractUuids report
  match sourcesSectionGo sources 1 uuids with
  | .error e => .error e
  | .ok lines =>
    .ok (renumberBody uuids report ++ "\n\n## Sources\n\n".toList ++ joinLines lines)

/-! ## The state machine (src/backend/deepresearch/graph.py, src/backend/main.py)

The LangGraph nodes and conditional edges become an explicit step function:
executing the node named by `Machine.node` and applying the routing functions
of graph.py verbatim.  A conditional fan-out returning no `Send` (an empty
query list) ends the run, as a superstep with no tasks does. -/

inductive Node
  | plan_research
  | generate_queries
  | perform_search
  | review_step
  | analyze_research_gaps
  | generate_feedback_queries
  | write_report
  | done
deriving DecidableEq, Repr

/-- The graph state.  `models.py` (lines 39-46) declares `query`,
`report_plan`, `serp_queries`, `search_results` (an `operator.add` channel),
`user_feedback`, `final_report`.  `feedback_loop_count`, `feedback_mode` and
`report_pages` are initialised by main.py (lines 144-146), updated by the
nodes and read by the routing with `state.get(...)`; their declaration lives
in the interactive state schema absent from src.  Modelled from the spec: §3
RunState carries `loop_count` and `mode` with exactly these uses. -/

structure DeepResearchState where
  query : String
  report_plan : String
  serp_queries : List DeepResearchSearchTask
  search_results : List DeepResearchSearchResult
  user_feedback : Option String
  feedback_loop_count : Nat
  feedback_mode : String
  report_pages : Nat
  final_report : String
deriving DecidableEq, Repr

/-- Python truthiness of `state.get("user_feedback")`: `None` and `""` are
falsy. -/

def truthyFeedback : Option String → Bool
  | none => false
  | some s => !s.isEmpty

/-- `evaluate_progress` (graph.py, 42-54): in auto mode continue to the gap
analysis while `loop_count < max_feedback_loops`, else write the report; in
any other mode go to the (interrupting) review step.  `feedback_mode` falls
back to the env config only when the key is absent, and main.py always sets
it. -/

def evaluate_progress (cfg : Config) (s : DeepResearchState) : Node :=
  if s.feedback_mode = "auto" then
    if s.feedback_loop_count < cfg.max_feedback_loops then .analyze_research_gaps
    else .write_report
  else .review_step

/-- `check_human_feedback` (graph.py, 63-66). -/

def check_human_feedback (s : DeepResearchState) : Node :=
  if truthyFeedback s.user_feedback then .generate_feedback_queries else .write_report

/-- `check_auto_feedback` (graph.py, 75-78). -/

def check_auto_feedback (s : DeepResearchState) : Node :=
  if truthyFeedback s.user_feedback then .generate_feedback_queries else .write_report

def allLearnings (rs : List DeepResearchSearchResult) : List String :=
  rs.flatMap (·.learnings)

def learningsStr (rs : List DeepResearchSearchResult) : String :=
  String.intercalate "\n" (allLearnings rs)

/-- `if "SATISFIED" in feedback` (nodes.py, line 240). -/

def containsSATISFIED (fb : String) : Bool :=
  containsSub "SATISFIED".toList fb.toList

structure Machine where
  node : Node
  state : DeepResearchState
  world : World
deriving DecidableEq, Repr

/-- One engine superstep: run the node named by `m.node`, apply its state
update, and route.  Mirrors, node by node, graph.py with the nodes of
nodes.py; `review_step` is the pass-through whose outgoing conditional edge
reads the (possibly externally injected) `user_feedback`. -/

def stepNode (c : Collaborators) (cfg : Config) (thread_id : String)
    (m : Machine) : Except NodeErr Machine :=
  match m.node with
  | .plan_research =>
    .ok ⟨.generate_queries, { m.state with report_plan := c.planner m.state.query }, m.world⟩
  | .generate_queries =>
    let qs := c.queryGen m.state.report_plan
    .ok ⟨if qs.isEmpty then .done else .perform_search,
      { m.state with serp_queries := qs }, m.world⟩
  | .perform_search =>
    match runSearchBatch c cfg thread_id m.world m.state.serp_queries with
    | .error e => .error e
    | .ok (w2, rs) =>
      let s2 := { m.state with search_results := m.state.search_results ++ rs }
      .ok ⟨evaluate_progress cfg s2, s2, w2⟩
  | .review_step => .ok ⟨check_human_feedback m.state, m.state, m.world⟩
  | .analyze_research_gaps =>
    let fb := c.gapAnalyst m.state.report_plan (learningsStr m.state.search_results)
    let s2 :=
      if containsSATISFIED fb then
        { m.state with user_feedback := none,
                       feedback_loop_count := m.state.feedback_loop_count + 1 }
      else
        { m.state with user_feedback := some fb,
                       feedback_loop_count := m.state.feedback_loop_count + 1 }
    .ok ⟨check_auto_feedback s2, s2, m.world⟩
  | .generate_feedback_queries =>
    let qs := c.feedbackQueryGen m.state.report_plan
      (learningsStr m.state.search_results) (m.state.user_feedback.getD "")
    .ok ⟨if qs.isEmpty then .done else .perform_search,
      { m.state with serp_queries := qs, user_feedback := none }, m.world⟩
  | .write_report =>
    let text := c.reportWriter m.state.report_plan
      (learningsStr m.state.search_results) m.state.report_pages
    let allSources := m.state.search_results.flatMap (·.sources)
    match write_report_post allSources text.toList with
    | .error e => .error e
    | .ok final =>
      let finalStr := final.asString
      .ok ⟨.done, { m.state with final_report := finalStr },
        ⟨save_report m.world.db thread_id finalStr, m.world.redis⟩⟩
  | .done => .ok m

def runSteps (c : Collaborators) (cfg : Config) (thread_id : String) :
    Nat → Machine → Except NodeErr Machine
  | 0, m => .ok m
  | n + 1, m =>
    match stepNode c cfg thread_id m with
    | .error e => .error e
    | .ok m2 => runSteps c cfg thread_id n m2

/-- The fresh-run initial state written by main.py (lines 138-148). -/

def initState (query feedback_mode : String) (report_pages : Nat) : DeepResearchState :=
  ⟨query, "", [], [], none, 0, feedback_mode, report_pages, ""⟩

def initMachine (query feedback_mode : String) (report_pages : Nat) (w : World) : Machine :=
  ⟨.plan_research, initState query feedback_mode report_pages, w⟩

/-! ## Checkpointing and resume (spec §3 Checkpoint, §4.4)

Modelled from the spec: the LangGraph checkpointer wired in main.py
(`AsyncSqliteSaver` behind `workflow.compile(checkpointer=...)`) is framework
code; per spec §3 a checkpoint is an immutable snapshot of the state plus the
next node, written at every node boundary, superseded but never deleted, with
the latest checkpoint per run authoritative on resume. -/

structure Checkpoint where
  step_seq : Nat
  state : DeepResearchState
  next : Node
deriving DecidableEq, Repr

def checkpointOf (n : Nat) (m : Machine) : Checkpoint := ⟨n, m.state, m.node⟩

/-- Run `n` supersteps from `m`, persisting a checkpoint at every boundary
(newest first), the initial input state included. -/

def runWithCheckpoints (c : Collaborators) (cfg : Config) (thread_id : String) :
    Nat → Machine → Except NodeErr (List Checkpoint × Machine)
  | 0, m => .ok ([checkpointOf 0 m], m)
  | n + 1, m =>
    match runWithCheckpoints c cfg thread_id n m with
    | .error e => .error e
    | .ok (cks, mn) =>
      match stepNode c cfg thread_id mn with
      | .error e => .error e
      | .ok m2 => .ok (checkpointOf (n + 1) m2 :: cks, m2)

def latestCheckpoint (cks : List Checkpoint) : Option Checkpoint := cks.head?

/-- Resume: reconstruct the machine from the latest persisted checkpoint and
the durable world (results store and Redis survive a crash; process memory
does not). -/

def resumeMachine (cks : List Checkpoint) (durable : World) : Option Machine :=
  (latestCheckpoint cks).map (fun ck => ⟨ck.next, ck.state, durable⟩)

/-- Drive a run for `fuel` supersteps and return the final report if it
reached the terminal node (`write_report → END`). -/

def finalReportOf (c : Collaborators) (cfg : Config) (thread_id : String)
    (m : Machine) (fuel : Nat) : Option String :=
  match runSteps c cfg thread_id fuel m with
  | .error _ => none
  | .ok m2 => if m2.node = .done then some m2.state.final_report else none

/-- Run with a forced crash after `crashAt` supersteps: all process memory is
dropped, the machine is rebuilt from the latest checkpoint and the durable
world, and the run continues to completion. -/

def runWithCrashResume (c : Collaborators) (cfg : Config) (thread_id : String)
    (m : Machine) (crashAt fuel : Nat) : Option String :=
  match runWithCheckpoints c cfg thread_id crashAt m with
  | .error _ => none
  | .ok (cks, mc) =>
    match resumeMachine cks ⟨mc.world.db, mc.world.redis⟩ with
    | none => none
    | some m2 => finalReportOf c cfg thread_id m2 fuel

/-- Does the machine reached after `n` supersteps sit at the SEARCH node
(about to execute a search round)? -/

def isSearchStepAt (c : Collaborators) (cfg : Config) (thread_id : String)
    (m : Machine) (n : Nat) : Bool :=
  match runSteps c cfg thread_id n m with
  | .ok m2 => m2.node == .perform_search
  | .error _ => false

/-- Number of SEARCH rounds started within the first `n` supersteps. -/

def searchStepCount (c : Collaborators) (cfg : Config) (thread_id : String)
    (m : Machine) (n : Nat) : Nat :=
  ((List.range n).filter (fun i => isSearchStepAt c cfg thread_id m i)).length

/-! ## Concrete deterministic stubs for witnesses and counterexamples -/

def itemA : SearchResultItem := ⟨"00000000000000000000000000000000", "http://a", "Alpha", "body a"⟩

def itemB : SearchResultItem := ⟨"11111111111111111111111111111111", "http://b", "Beta", "body b"⟩

/-- Total deterministic collaborators: every call succeeds, the gap analyst
always reports a (non-`SATISFIED`, nonempty) gap. -/

def cTotal : Collaborators :=
  ⟨fun _ => "the plan",
   fun _ => [⟨"q1", "g1"⟩],
   fun _ _ _ => [⟨"q2", "g2"⟩],
   fun _ => .ok ⟨[itemA], []⟩,
   fun _ _ _ => .ok "learned facts",
   fun _ _ => "more research needed",
   fun _ _ _ => "Report body."⟩

/-- Collaborators whose summarizing LLM chain always fails (retries
exhausted). -/

def cSummFail : Collaborators :=
  ⟨fun _ => "the plan",
   fun _ => [⟨"q1", "g1"⟩],
   fun _ _ _ => [⟨"q2", "g2"⟩],
   fun _ => .ok ⟨[itemA], []⟩,
   fun _ _ _ => .error "rate limit",
   fun _ _ => "more research needed",
   fun _ _ _ => "Report body."⟩

/-- Collaborators whose search provider always fails while the summarizer
succeeds. -/

def cSearchFail : Collaborators :=
  ⟨fun _ => "the plan",
   fun _ => [⟨"q1", "g1"⟩],
   fun _ _ _ => [⟨"q2", "g2"⟩],
   fun _ => .error "provider down",
   fun _ _ _ => .ok "nothing found",
   fun _ _ => "more research needed",
   fun _ _ _ => "Report body."⟩

/-- Human-mode configuration with defaults (redis disabled). -/

def cfgHuman : Config := ⟨"human", 3, 5, false, "tavily"⟩

/-- Auto mode with `max_feedback_loops = 1`. -/

def cfgAuto1 : Config := ⟨"auto", 1, 5, false, "tavily"⟩

/-- An empty durable world. -/

def emptyWorld : World := ⟨⟨[], []⟩, []⟩

/-- A concrete two-task batch. -/

def twoTasks : List DeepResearchSearchTask := [⟨"qa", "ga"⟩, ⟨"qb", "gb"⟩]

/-- A store holding one cache row whose payload `json.loads` rejects. -/

def corruptDB : ResultsDB := ⟨[(("run1", "q1"), ⟨none, "stale learnings"⟩)], []⟩

/-- A machine paused at the review step with no pending feedback. -/

def mReviewEmpty : Machine :=
  ⟨.review_step, ⟨"q", "p", [], [], none, 0, "human", 5, ""⟩, emptyWorld⟩

/-- A machine at the review step after `aupdate_state` injected feedback. -/

def mReviewFb : Machine :=
  ⟨.review_step, ⟨"q", "p", [], [], some "dig deeper", 0, "human", 5, ""⟩, emptyWorld⟩

/-- A machine about to run `generate_feedback_queries`. -/

def mGenFb : Machine :=
  ⟨.generate_feedback_queries, ⟨"q", "p", [], [], some "dig deeper", 0, "human", 5, ""⟩,
    emptyWorld⟩

/-! ## The auto-mode loop invariant (C1) -/

/-- Invariant of every reachable state of an auto-mode run with bound `k`:
the mode is fixed, `feedback_loop_count` never exceeds `k`, and the gap
analysis — the only node incrementing the counter — is only ever entered with
the counter strictly below `k` (the guard of `evaluate_progress`). -/

def AutoInv (k : Nat) (m : Machine) : Prop :=
  m.state.feedback_mode = "auto" ∧ m.state.feedback_loop_count ≤ k ∧
    (m.node = .analyze_research_gaps → m.state.feedback_loop_count < k)

/-- Ids and sources of the spec's citation example (§ renumbering): the
literal ids `abc` and `def`. -/

def srcAbc : SearchResultItem := ⟨"abc", "http://abc", "Abc", "c1"⟩

def srcDef : SearchResultItem := ⟨"def", "http://def", "Def", "c2"⟩

def c4AbcReport : Chars := "Intro [abc] mid [def] end.".toList

/-- A 32-hex-digit id accepted by `uuid.UUID(_, version=4)`, and a second one. -/

def uuidA : Chars := "00000000000000000000000000000000".toList

def uuidB : Chars := "00000000000000000000000000000001".toList

def srcA : SearchResultItem :=
  ⟨"00000000000000000000000000000000", "http://a", "Alpha", "ca"⟩

def srcB : SearchResultItem :=
  ⟨"00000000000000000000000000000001", "http://b", "Beta", "cb"⟩

def c4Sources : List SearchResultItem := [srcA, srcB]

def c4Report : Chars :=
  ("Intro [00000000000000000000000000000000] mid " ++
    "[00000000000000000000000000000001] end.").toList

def c4DupReport : Chars :=
  ("See [00000000000000000000000000000000] and again " ++
    "[00000000000000000000000000000000].").toList

def c10Report : Chars :=
  ("cite [00000000000000000000000000000000] and " ++
    "[ab[00000000000000000000000000000000]").toList

def c10WitnessReport : Chars :=
  "cite [00000000000000000000000000000000] keep [TODO] and [1].".toList

theorem containsSub_iff (pat s : Chars) : containsSub pat s = true ↔ pat <:+: s := by
  induction s with
  | nil =>
    constructor
    · intro h
      have : pat = [] := by simpa [containsSub, List.isEmpty_iff] using h
      simp [this]
    · intro h
      have : pat = [] := by simpa using h
      simp [containsSub, this, List.isEmpty_iff]
  | cons c rest ih =>
    simp only [containsSub, Bool.or_eq_true, ih]
    constructor
    · rintro (h | h)
      · exact (List.isPrefixOf_iff_prefix.mp h).isInfix
      · exact h.trans (List.suffix_cons c rest).isInfix
    · intro h
      rcases List.infix_cons_iff.mp h with h | h
      · exact Or.inl (List.isPrefixOf_iff_prefix.mpr h)
      · exact Or.inr h

theorem brak_ne_nil (t : Chars) : brak t ≠ [] := by simp [brak]

theorem brak_inj {t u : Chars} (h : brak t = brak u) : t = u := by
  simpa [brak] using h

/-- Every token found from the neutral scanning state occurs bracketed in the
remaining input; a token found from an open-bracket state either does so or
completes the pending accumulator. -/

theorem findTokensGo_spec (n : Nat) : ∀ s : Chars, s.length ≤ n →
    (∀ t, t ∈ findTokensGo none s → brak t <:+: s) ∧
    (∀ acc t, t ∈ findTokensGo (some acc) s →
      brak t <:+: s ∨ ∃ v r, s = v ++ ']' :: r ∧ t = acc.reverse ++ v) := by
  induction n with
  | zero =>
    intro s hs
    have : s = [] := List.eq_nil_of_length_eq_zero (Nat.le_zero.mp hs)
    subst this
    exact ⟨by intro t h; simp [findTokensGo] at h, by intro acc t h; simp [findTokensGo] at h⟩
  | succ n ih =>
    intro s hs
    cases s with
    | nil =>
      exact ⟨by intro t h; simp [findTokensGo] at h, by intro acc t h; simp [findTokensGo] at h⟩
    | cons c rest =>
      have hlen : rest.length ≤ n := by simp only [List.length_cons] at hs; omega
      constructor
      · intro t h
        by_cases hc : c = '['
        · subst hc
          simp only [findTokensGo, if_pos] at h
          rcases (ih rest hlen).2 [] t h with h2 | ⟨v, r, hvr, ht⟩
          · exact h2.trans (List.infix_cons (List.infix_refl rest))
          · subst hvr
            refine (List.prefix_iff_eq_append.mpr ?_ : brak t <+: _).isInfix
            simp [brak, ht]
        · simp only [findTokensGo, if_neg hc] at h
          exact ((ih rest hlen).1 t h).trans (List.infix_cons (List.infix_refl rest))
      · intro acc t h
        by_cases hc : c = ']'
        · subst hc
          simp only [findTokensGo, if_pos, List.mem_cons] at h
          rcases h with h | h
          · exact Or.inr ⟨[], rest, rfl, by simp [h]⟩
          · exact Or.inl (((ih rest hlen).1 t h).trans (List.infix_cons (List.infix_refl rest)))
        · by_cases hn : c = '\n'
          · subst hn
            simp only [findTokensGo, if_neg hc, if_pos] at h
            exact Or.inl (((ih rest hlen).1 t h).trans (List.infix_cons (List.infix_refl rest)))
          · simp only [findTokensGo, if_neg hc, if_neg hn] at h
            rcases (ih rest hlen).2 (c :: acc) t h with h2 | ⟨v, r, hvr, ht⟩
            · exact Or.inl (h2.trans (List.infix_cons (List.infix_refl rest)))
            · subst hvr
              exact Or.inr ⟨c :: v, r, rfl, by simp [ht]⟩

/-- A found token occurs bracketed, `[token]`, inside the scanned text. -/

theorem findTokens_occurs {s : Chars} {t : Chars} (h : t ∈ findTokens s) :
    brak t <:+: s := (findTokensGo_spec s.length s le_rfl).1 t h

/-- Tokens never contain `']'` (the regex stops at the first `']'`). -/

theorem findTokensGo_no_rb (n : Nat) : ∀ s : Chars, s.length ≤ n →
    ∀ st t, t ∈ findTokensGo st s →
    (∀ acc, st = some acc → ']' ∉ acc) → ']' ∉ t := by
  induction n with
  | zero =>
    intro s hs st t h
    have : s = [] := List.eq_nil_of_length_eq_zero (Nat.le_zero.mp hs)
    subst this
    cases st <;> simp [findTokensGo] at h
  | succ n ih =>
    intro s hs st t h hacc
    cases s with
    | nil => cases st <;> simp [findTokensGo] at h
    | cons c rest =>
      have hlen : rest.length ≤ n := by simp only [List.length_cons] at hs; omega
      cases st with
      | none =>
        by_cases hc : c = '['
        · subst hc; simp only [findTokensGo, if_pos] at h
          exact ih rest hlen _ t h (by intro acc h0; injection h0 with h0; subst h0; simp)
        · simp only [findTokensGo, if_neg hc] at h
          exact ih rest hlen _ t h (by intro acc h0; cases h0)
      | some acc =>
        by_cases hc : c = ']'
        · subst hc; simp only [findTokensGo, if_pos, List.mem_cons] at h
          rcases h with h | h
          · subst h
            intro hmem
            exact (hacc acc rfl) (by simpa using hmem)
          · exact ih rest hlen _ t h (by intro acc h0; cases h0)
        · by_cases hn : c = '\n'
          · subst hn; simp only [findTokensGo, if_neg hc, if_pos] at h
            exact ih rest hlen _ t h (by intro acc h0; cases h0)
          · simp only [findTokensGo, if_neg hc, if_neg hn] at h
            refine ih rest hlen _ t h ?_
            intro acc' h0
            injection h0 with h0; subst h0
            intro hmem
            rcases List.mem_cons.mp hmem with h1 | h1
            · exact hc h1.symm
            · exact (hacc acc rfl) h1

theorem findTokens_no_rb {s t : Chars} (h : t ∈ findTokens s) : ']' ∉ t :=
  findTokensGo_no_rb s.length s le_rfl none t h (by intro acc h0; cases h0)

theorem digitChar_mem (n : Nat) :
    digitChar n ∈ ['0', '1', '2', '3', '4', '5', '6', '7', '8', '9'] := by
  unfold digitChar
  split <;> simp

theorem natCharsGo_digits (fuel : Nat) : ∀ n c, c ∈ natCharsGo fuel n →
    c ∈ ['0', '1', '2', '3', '4', '5', '6', '7', '8', '9'] := by
  induction fuel with
  | zero => intro n c h; simp [natCharsGo] at h
  | succ fuel ih =>
    intro n c h
    unfold natCharsGo at h
    by_cases hn : n < 10
    · simp only [if_pos hn, List.mem_singleton] at h
      subst h; exact digitChar_mem n
    · simp only [if_neg hn, List.mem_append, List.mem_singleton] at h
      rcases h with h | h
      · exact ih _ _ h
      · subst h; exact digitChar_mem _

theorem natChars_digits {n : Nat} {c : Char} (h : c ∈ natChars n) :
    c ∈ ['0', '1', '2', '3', '4', '5', '6', '7', '8', '9'] :=
  natCharsGo_digits _ _ _ h

/-- Decimal numerals are bracket-free. -/

theorem natChars_bfree (n : Nat) : BFree (natChars n) := by
  constructor <;> intro h <;> exact absurd (natChars_digits h) (by decide)

/-! ### A token accepted by `uuid.UUID` is bracket-free

The normalisation only removes characters of `urn:`, `uuid:`, `{`, `}`, `-`;
the remaining 32 characters must pass `int(_, 16)`, whose alphabet is
whitespace, a sign, `0x`, underscores and hexadecimal digits.  `'['` and `']'`
belong to neither set. -/

theorem mem_dropWhile_of {p : Char → Bool} {c : Char} {s : Chars}
    (h : c ∈ s) (hp : p c = false) : c ∈ s.dropWhile p := by
  induction s with
  | nil => cases h
  | cons a t ih =>
    rcases List.mem_cons.mp h with h | h
    · subst h
      rw [List.dropWhile_cons, if_neg (by simp [hp])]
      exact List.mem_cons_self _ _
    · by_cases hpa : p a = true
      · rw [List.dropWhile_cons, if_pos (by simp [hpa])]
        exact ih h
      · rw [List.dropWhile_cons, if_neg (by simpa using hpa)]
        exact List.mem_cons_of_mem _ h

theorem mem_stripEnds {p : Char → Bool} {c : Char} {s : Chars}
    (h : c ∈ s) (hp : p c = false) : c ∈ stripEnds p s := by
  unfold stripEnds
  exact List.mem_reverse.mpr
    (mem_dropWhile_of (List.mem_reverse.mpr (mem_dropWhile_of h hp)) hp)

theorem mem_replaceAllGo {pat repl : Chars} {c : Char}
    (hpat : pat ≠ []) (hc : c ∉ pat) :
    ∀ fuel s, c ∈ s → c ∈ replaceAllGo pat repl fuel s := by
  intro fuel
  induction fuel with
  | zero =>
    intro s h
    cases s with
    | nil => cases h
    | cons a t => simpa [replaceAllGo] using h
  | succ fuel ih =>
    intro s h
    cases s with
    | nil => cases h
    | cons a t =>
      by_cases hpre : pat.isPrefixOf (a :: t) = true
      · have hsplit : pat ++ List.drop pat.length (a :: t) = a :: t :=
          List.prefix_iff_eq_append.mp (List.isPrefixOf_iff_prefix.mp hpre)
        have hdrop : List.drop pat.length (a :: t) = List.drop (pat.length - 1) t := by
          cases pat with
          | nil => exact absurd rfl hpat
          | cons p ps => simp
        have hin : c ∈ List.drop (pat.length - 1) t := by
          rw [← hdrop]
          rcases List.mem_append.mp (by rw [hsplit]; exact h) with h1 | h1
          · exact absurd h1 hc
          · exact h1
        simp only [replaceAllGo, if_pos hpre, List.mem_append]
        exact Or.inr (ih _ hin)
      · simp only [replaceAllGo, if_neg hpre, List.mem_cons]
        rcases List.mem_cons.mp h with h1 | h1
        · exact Or.inl h1
        · exact Or.inr (ih _ h1)

theorem mem_replaceAll {pat repl : Chars} {c : Char} {s : Chars}
    (hpat : pat ≠ []) (hc : c ∉ pat) (h : c ∈ s) : c ∈ replaceAll pat repl s := by
  unfold replaceAll
  rw [if_neg (by simp [List.isEmpty_iff, hpat])]
  exact mem_replaceAllGo hpat hc _ _ h

theorem hexCoreOk_mem {s : Chars} {c : Char}
    (h : hexCoreOk s = true) (hc : c ∈ s) : hexOrUnderscore c = true := by
  simp only [hexCoreOk, Bool.and_eq_true] at h
  exact List.all_eq_true.mp h.1.1.1.2 c hc

theorem mem_dropSign {t : Chars} {c : Char} (h : c ∈ t) :
    c = '+' ∨ c = '-' ∨ c ∈ dropSign t := by
  unfold dropSign
  split
  · rcases List.mem_cons.mp h with h | h
    · exact Or.inl h
    · exact Or.inr (Or.inr h)
  · rcases List.mem_cons.mp h with h | h
    · exact Or.inr (Or.inl h)
    · exact Or.inr (Or.inr h)
  · exact Or.inr (Or.inr h)

theorem mem_hexBody {t : Chars} {c : Char} (h : c ∈ t) :
    c = '0' ∨ c = 'x' ∨ c = 'X' ∨ c = '_' ∨ c ∈ hexBody t := by
  unfold hexBody
  split
  · rcases List.mem_cons.mp h with h | h
    · exact Or.inl h
    rcases List.mem_cons.mp h with h | h
    · exact Or.inr (Or.inl h)
    rcases List.mem_cons.mp h with h | h
    · exact Or.inr (Or.inr (Or.inr (Or.inl h)))
    · exact Or.inr (Or.inr (Or.inr (Or.inr h)))
  · rcases List.mem_cons.mp h with h | h
    · exact Or.inl h
    rcases List.mem_cons.mp h with h | h
    · exact Or.inr (Or.inl h)
    · exact Or.inr (Or.inr (Or.inr (Or.inr h)))
  · rcases List.mem_cons.mp h with h | h
    · exact Or.inl h
    rcases List.mem_cons.mp h with h | h
    · exact Or.inr (Or.inr (Or.inl h))
    rcases List.mem_cons.mp h with h | h
    · exact Or.inr (Or.inr (Or.inr (Or.inl h)))
    · exact Or.inr (Or.inr (Or.inr (Or.inr h)))
  · rcases List.mem_cons.mp h with h | h
    · exact Or.inl h
    rcases List.mem_cons.mp h with h | h
    · exact Or.inr (Or.inr (Or.inl h))
    · exact Or.inr (Or.inr (Or.inr (Or.inr h)))
  · exact Or.inr (Or.inr (Or.inr (Or.inr h)))

theorem pyIntHex16Ok_mem {s : Chars} {c : Char}
    (h : pyIntHex16Ok s = true) (hc : c ∈ s) :
    c.isWhitespace = true ∨ c = '+' ∨ c = '-' ∨ c = '0' ∨ c = 'x' ∨ c = 'X' ∨
      c = '_' ∨ hexOrUnderscore c = true := by
  by_cases hw : c.isWhitespace = true
  · exact Or.inl hw
  · have h1 : c ∈ stripEnds (fun c => c.isWhitespace) s :=
      mem_stripEnds hc (by simpa using hw)
    rcases mem_dropSign h1 with h2 | h2 | h2
    · exact Or.inr (Or.inl h2)
    · exact Or.inr (Or.inr (Or.inl h2))
    rcases mem_hexBody h2 with h3 | h3 | h3 | h3 | h3
    · exact Or.inr (Or.inr (Or.inr (Or.inl h3)))
    · exact Or.inr (Or.inr (Or.inr (Or.inr (Or.inl h3))))
    · exact Or.inr (Or.inr (Or.inr (Or.inr (Or.inr (Or.inl h3)))))
    · exact Or.inr (Or.inr (Or.inr (Or.inr (Or.inr (Or.inr (Or.inl h3))))))
    · exact Or.inr (Or.inr (Or.inr (Or.inr (Or.inr (Or.inr (Or.inr
        (hexCoreOk_mem h h3)))))))

/-- A token accepted by `uuid.UUID(_, version=4)` contains no bracket. -/

theorem isValidUUID_bfree {t : Chars} (h : isValidUUID t = true) : BFree t := by
  have hpy : pyIntHex16Ok (uuidNormalize t) = true := by
    simp only [isValidUUID, Bool.and_eq_true] at h
    exact h.2
  have key : ∀ c : Char, c.isWhitespace = false → c ≠ '+' → c ≠ '-' → c ≠ '0' →
      c ≠ 'x' → c ≠ 'X' → c ≠ '_' → hexOrUnderscore c = false →
      c ≠ '{' → c ≠ '}' → c ∉ "urn:".toList → c ∉ "uuid:".toList → c ∉ ['-'] →
      c ∉ t := by
    intro c hw hp hm h0 hx hX hu hh hb1 hb2 hurn huuid hdash hmem
    have h1 : c ∈ uuidNormalize t := by
      unfold uuidNormalize
      exact mem_replaceAll (by decide) hdash
        (mem_stripEnds
          (mem_replaceAll (by decide) huuid
            (mem_replaceAll (by decide) hurn hmem))
          (by simp [isBraceChar, hb1, hb2]))
    rcases pyIntHex16Ok_mem hpy h1 with h2 | h2 | h2 | h2 | h2 | h2 | h2 | h2 <;>
      simp_all
  constructor
  · exact key '[' (by decide) (by decide) (by decide) (by decide) (by decide)
      (by decide) (by decide) (by decide) (by decide) (by decide) (by decide)
      (by decide) (by decide)
  · exact key ']' (by decide) (by decide) (by decide) (by decide) (by decide)
      (by decide) (by decide) (by decide) (by decide) (by decide) (by decide)
      (by decide) (by decide)

/-! # Theorems

## Store lemmas -/

theorem lookupCacheRow_save_self (db : ResultsDB) (rid q : String)
    (raw : ProviderResult) (l : String) :
    lookupCacheRow (save_search_result db rid q raw l) rid q = some ⟨some raw, l⟩ := by
  simp [lookupCacheRow, save_search_result, List.find?]

theorem get_search_result_save_self (db : ResultsDB) (rid q : String)
    (raw : ProviderResult) (l : String) :
    get_search_result (save_search_result db rid q raw l) rid q = .ok (some (raw, l)) := by
  simp [get_search_result, lookupCacheRow_save_self]

theorem wellFormed_save {db : ResultsDB} (h : db.wellFormed) (rid q : String)
    (raw : ProviderResult) (l : String) :
    (save_search_result db rid q raw l).wellFormed := by
  intro rid' q' row hrow
  by_cases hk : (rid, q) = (rid', q')
  · rw [show rid' = rid from (Prod.mk.injEq .. ▸ hk).1.symm,
      show q' = q from (Prod.mk.injEq .. ▸ hk).2.symm] at hrow
    rw [lookupCacheRow_save_self] at hrow
    cases hrow
    rfl
  · have : lookupCacheRow (save_search_result db rid q raw l) rid' q' =
        lookupCacheRow db rid' q' := by
      simp only [lookupCacheRow, save_search_result, List.find?]
      rw [show (decide (((rid, q), (⟨some raw, l⟩ : CacheRow)).1 = (rid', q'))) = false by
        simpa using hk]
    rw [this] at hrow
    exact h rid' q' row hrow

theorem get_search_result_wf {db : ResultsDB} (h : db.wellFormed) (rid q : String) :
    get_search_result db rid q = .ok none ∨
    ∃ raw l, get_search_result db rid q = .ok (some (raw, l)) := by
  cases hrow : lookupCacheRow db rid q with
  | none => exact Or.inl (by simp [get_search_result, hrow])
  | some row =>
    cases hraw : row.rawParse with
    | none => exact absurd (hraw ▸ h rid q row hrow) (by simp)
    | some raw =>
      exact Or.inr ⟨raw, row.learnings, by simp [get_search_result, hrow, hraw]⟩

/-! ## C3 — cache idempotence -/

/-- C3: for every run_id and query, resolving the same search task twice
performs at most one external search-and-summarize call — the second
resolution is served from the persisted cache row (the instrumentation flag
is `false`, the world is untouched) and returns the very same result,
learnings included. -/

theorem C3_cache_idempotence (c : Collaborators) (cfg : Config) (w : World)
    (tid : String) (task : DeepResearchSearchTask) (w1 : World)
    (r1 : DeepResearchSearchResult) (b1 : Bool)
    (h : perform_search c cfg w tid task = .ok (w1, r1, b1)) :
    perform_search c cfg w1 tid task = .ok (w1, r1, false) := by
  cases hg : get_search_result w.db tid task.query with
  | error e => simp [perform_search, hg] at h
  | ok o =>
    cases o with
    | some rawl =>
      obtain ⟨raw, l⟩ := rawl
      simp only [perform_search, hg] at h
      obtain ⟨hw, hr, hb⟩ := by simpa [Prod.ext_iff] using h
      subst hw
      simp [perform_search, hg, ← hr]
    | none =>
      cases hs : c.summarizer task.query task.research_goal
          (contextStr (SearchTools.perform_search cfg c.searcher w.redis task.query).1.sources) with
      | error e => simp [perform_search, hg, hs] at h
      | ok l =>
        simp only [perform_search, hg, hs] at h
        obtain ⟨hw, hr, hb⟩ := by simpa [Prod.ext_iff] using h
        have hdb : w1.db = save_search_result w.db tid task.query
            (SearchTools.perform_search cfg c.searcher w.redis task.query).1 l := by
          rw [← hw]
        have hred : w1.redis = (SearchTools.perform_search cfg c.searcher w.redis task.query).2 := by
          rw [← hw]
        simp [perform_search, hdb, get_search_result_save_self, ← hr, ← hw]

/-! ## C3 witness -/

/-- C3 witness: a concrete fresh resolution followed by a cached one. -/

theorem C3_witness :
    perform_search cTotal cfgHuman emptyWorld "t" ⟨"q1", "g1"⟩ =
      .ok (⟨⟨[(("t", "q1"), ⟨some ⟨[itemA], []⟩, "learned facts"⟩)], []⟩, []⟩,
        ⟨"q1", "g1", ["learned facts"], [itemA], []⟩, true) ∧
    perform_search cTotal cfgHuman
        ⟨⟨[(("t", "q1"), ⟨some ⟨[itemA], []⟩, "learned facts"⟩)], []⟩, []⟩ "t" ⟨"q1", "g1"⟩ =
      .ok (⟨⟨[(("t", "q1"), ⟨some ⟨[itemA], []⟩, "learned facts"⟩)], []⟩, []⟩,
        ⟨"q1", "g1", ["learned facts"], [itemA], []⟩, false) :=
  ⟨rfl, C3_cache_idempotence cTotal cfgHuman emptyWorld "t" ⟨"q1", "g1"⟩ _ _ _ rfl⟩

/-! ## C7 — human-loop termination -/

/-- C7: in HUMAN mode at the review step, empty or absent feedback routes the
run straight to report writing; nonempty feedback routes it to
`generate_feedback_queries`, whose execution leaves `feedback_loop_count`
untouched in every run state. -/

theorem C7_human_review_routing (c : Collaborators) (cfg : Config) (tid : String) :
    (∀ m : Machine, m.node = .review_step → m.state.feedback_mode = "human" →
      ((m.state.user_feedback = none ∨ m.state.user_feedback = some "") →
        stepNode c cfg tid m = .ok ⟨.write_report, m.state, m.world⟩) ∧
      (∀ fb, m.state.user_feedback = some fb → fb ≠ "" →
        stepNode c cfg tid m = .ok ⟨.generate_feedback_queries, m.state, m.world⟩)) ∧
    (∀ m m2 : Machine, m.node = .generate_feedback_queries →
      stepNode c cfg tid m = .ok m2 →
      m2.state.feedback_loop_count = m.state.feedback_loop_count) := by
  constructor
  · rintro ⟨nd, st, wd⟩ hnode hmode
    simp only at hnode
    subst hnode
    constructor
    · rintro (h | h) <;> simp only at h <;>
        simp [stepNode, check_human_feedback, truthyFeedback, h,
          show ("" : String).isEmpty = true from rfl]
    · intro fb hfb hne
      simp only at hfb
      have hemp : fb.isEmpty = false := by
        cases heq : fb.isEmpty
        · rfl
        · exact absurd ((String.isEmpty_iff fb).mp heq) hne
      simp [stepNode, check_human_feedback, truthyFeedback, hfb, hemp]
  · rintro ⟨nd, st, wd⟩ m2 hnode h
    simp only at hnode
    subst hnode
    simp only [stepNode] at h
    cases h
    rfl

/-- C7 witness: concrete review-step machines with empty, and nonempty,
feedback, and a concrete feedback-query generation leaving the counter at 0. -/

theorem C7_witness :
    stepNode cTotal cfgHuman "t" mReviewEmpty =
      .ok ⟨.write_report, mReviewEmpty.state, mReviewEmpty.world⟩ ∧
    stepNode cTotal cfgHuman "t" mReviewFb =
      .ok ⟨.generate_feedback_queries, mReviewFb.state, mReviewFb.world⟩ ∧
    ∃ m2, stepNode cTotal cfgHuman "t" mGenFb = .ok m2 ∧
      m2.state.feedback_loop_count = mGenFb.state.feedback_loop_count :=
  ⟨((C7_human_review_routing cTotal cfgHuman "t").1 mReviewEmpty rfl rfl).1 (Or.inl rfl),
   ((C7_human_review_routing cTotal cfgHuman "t").1 mReviewFb rfl rfl).2 "dig deeper" rfl
     (by decide),
   ⟨⟨.perform_search, ⟨"q", "p", [⟨"q2", "g2"⟩], [], none, 0, "human", 5, ""⟩, emptyWorld⟩,
     rfl,
     (C7_human_review_routing cTotal cfgHuman "t").2 mGenFb _ rfl rfl⟩⟩

/-! ## C8 — corrupted cache payload -/

/-- C8 counterexample: the claim says an unparseable persisted payload is
treated exactly as a cache miss and is never fatal; on the concrete corrupted
row, `get_search_result` instead raises the JSON decode error (it does not
return as if no entry existed), and the error propagates out of the
`perform_search` node. -/

theorem C8_counterexample :
    get_search_result corruptDB "run1" "q1" = .error .jsonDecodeError ∧
    get_search_result corruptDB "run1" "q1" ≠ .ok none ∧
    perform_search cTotal cfgHuman ⟨corruptDB, []⟩ "run1" ⟨"q1", "goal"⟩ =
      .error .jsonDecode :=
  ⟨rfl,
   by
    intro hco
    rw [show get_search_result corruptDB "run1" "q1" =
      Except.error DbError.jsonDecodeError from rfl] at hco
    exact Except.noConfusion hco,
   rfl⟩

/-- C8 amended: if the persisted payload of a `(run_id, query)` cache row is
unparseable, `get_search_result` raises a JSON decode error, which propagates
out of `perform_search` and fails that node; only an absent row behaves as a
cache miss, so the corrupted entry is never rewritten. -/

theorem C8_unparseable_payload_fatal (db : ResultsDB) (rid q : String)
    (row : CacheRow) (hrow : lookupCacheRow db rid q = some row)
    (hbad : row.rawParse = none) :
    get_search_result db rid q = .error .jsonDecodeError ∧
    ∀ (c : Collaborators) (cfg : Config) (redis : RedisCache) (goal : String),
      perform_search c cfg ⟨db, redis⟩ rid ⟨q, goal⟩ = .error .jsonDecode := by
  have h1 : get_search_result db rid q = .error .jsonDecodeError := by
    simp [get_search_result, hrow, hbad]
  exact ⟨h1, fun c cfg redis goal => by simp [perform_search, h1]⟩

/-- C8 witness: the amended behaviour on the concrete corrupted store. -/

theorem C8_witness :
    get_search_result corruptDB "run1" "q1" = .error .jsonDecodeError ∧
    perform_search cSummFail cfgHuman ⟨corruptDB, []⟩ "run1" ⟨"q1", "g"⟩ =
      .error .jsonDecode :=
  ⟨(C8_unparseable_payload_fatal corruptDB "run1" "q1" ⟨none, "stale learnings"⟩ rfl rfl).1,
   (C8_unparseable_payload_fatal corruptDB "run1" "q1" ⟨none, "stale learnings"⟩ rfl rfl).2
     cSummFail cfgHuman [] "g"⟩

/-! ## C9 — the search tool swallows provider errors -/

/-- C9: for every query and configuration, `SearchTools.perform_search` is a
total function (no provider exception reaches its caller); whenever the
provider call fails (and the result is not served by the Redis layer) it
returns the dict with empty `sources` and `images` and leaves the Redis cache
unwritten — indistinguishable from a search with no results. -/

theorem C9_tool_swallows_provider_error (cfg : Config)
    (searcher : String → Except String ProviderResult) (redis : RedisCache)
    (q e : String)
    (hmiss : cfg.redis_enabled = false ∨ redisLookup redis (redisKey cfg q) = none)
    (herr : searcher q = .error e) :
    SearchTools.perform_search cfg searcher redis q = (⟨[], []⟩, redis) := by
  rcases hmiss with h | h <;> simp [SearchTools.perform_search, h, herr]

/-- C9 witness: a concrete failing provider with Redis disabled. -/

theorem C9_witness :
    SearchTools.perform_search cfgHuman (fun _ => .error "provider down") [] "q" =
      (⟨[], []⟩, []) :=
  C9_tool_swallows_provider_error cfgHuman (fun _ => .error "provider down") [] "q"
    "provider down" (Or.inl rfl) rfl

/-! ## Batch lemmas for C5 and C6 -/

theorem perform_search_ok (c : Collaborators) (cfg : Config) (w : World)
    (tid : String) (task : DeepResearchSearchTask)
    (hwf : w.db.wellFormed)
    (hsum : ∀ q g ctx, ∃ l, c.summarizer q g ctx = Except.ok l) :
    ∃ w2 r b, perform_search c cfg w tid task = .ok (w2, r, b) ∧
      w2.db.wellFormed ∧ r.query = task.query ∧
      r.research_goal = task.research_goal := by
  rcases get_search_result_wf hwf tid task.query with hg | ⟨raw, l, hg⟩
  · obtain ⟨l, hs⟩ := hsum task.query task.research_goal
      (contextStr (SearchTools.perform_search cfg c.searcher w.redis task.query).1.sources)
    refine ⟨⟨save_search_result w.db tid task.query
        (SearchTools.perform_search cfg c.searcher w.redis task.query).1 l,
        (SearchTools.perform_search cfg c.searcher w.redis task.query).2⟩,
      ⟨task.query, task.research_goal, [l],
        (SearchTools.perform_search cfg c.searcher w.redis task.query).1.sources,
        (SearchTools.perform_search cfg c.searcher w.redis task.query).1.images⟩,
      true, ?_, wellFormed_save hwf _ _ _ _, rfl, rfl⟩
    simp [perform_search, hg, hs]
  · refine ⟨w, ⟨task.query, task.research_goal, [l], raw.sources, raw.images⟩,
      false, ?_, hwf, rfl, rfl⟩
    simp [perform_search, hg]

theorem runSearchBatch_ok (c : Collaborators) (cfg : Config) (tid : String)
    (hsum : ∀ q g ctx, ∃ l, c.summarizer q g ctx = Except.ok l) :
    ∀ (tasks : List DeepResearchSearchTask) (w : World), w.db.wellFormed →
    ∃ w2 rs, runSearchBatch c cfg tid w tasks = .ok (w2, rs) ∧ w2.db.wellFormed ∧
      List.Forall₂ (fun r t =>
        r.query = t.query ∧ r.research_goal = t.research_goal) rs tasks := by
  intro tasks
  induction tasks with
  | nil => exact fun w hwf => ⟨w, [], rfl, hwf, .nil⟩
  | cons t ts ih =>
    intro w hwf
    obtain ⟨w1, r, b, hstep, hwf1, hq, hg⟩ := perform_search_ok c cfg w tid t hwf hsum
    obtain ⟨w2, rs, hrest, hwf2, hfa⟩ := ih w1 hwf1
    refine ⟨w2, r :: rs, ?_, hwf2, .cons ⟨hq, hg⟩ hfa⟩
    simp [runSearchBatch, hstep, hrest]

/-! ## C5 — a single failed task does not abort the batch (corrected) -/

/-- C5 counterexample: the claim says a single task's failure never aborts
the batch and the failed task yields an empty-learnings placeholder tagged
with an error marker.  With a summarizer chain that fails (retries
exhausted), the concrete two-task batch aborts with the propagated error: no
placeholder of any kind is produced and both tasks' results are lost. -/

theorem C5_counterexample :
    runSearchBatch cSummFail cfgHuman "t" emptyWorld [⟨"q1", "g1"⟩, ⟨"q2", "g2"⟩] =
      .error (.summarizerFailed "rate limit") := rfl

/-- C5 amended: only a failure of the external search call is tolerated — the
batch completes with one result per task regardless of provider outcomes
(given a well-formed store and a succeeding summarizer), and a task whose
provider call fails on a cache miss yields a result with empty `sources` and
`images`, its learnings produced by summarizing the empty context and carrying
no error marker.  A summarizer failure aborts the whole batch. -/

theorem C5_search_failure_degrades (c : Collaborators) (cfg : Config) (tid : String) :
    (∀ (w : World) (tasks : List DeepResearchSearchTask), w.db.wellFormed →
      (∀ q g ctx, ∃ l, c.summarizer q g ctx = Except.ok l) →
      ∃ w2 rs, runSearchBatch c cfg tid w tasks = .ok (w2, rs) ∧
        rs.length = tasks.length) ∧
    (∀ (w : World) (t : DeepResearchSearchTask) (e l : String),
      lookupCacheRow w.db tid t.query = none →
      cfg.redis_enabled = false →
      c.searcher t.query = .error e →
      c.summarizer t.query t.research_goal (contextStr []) = .ok l →
      perform_search c cfg w tid t =
        .ok (⟨save_search_result w.db tid t.query ⟨[], []⟩ l, w.redis⟩,
          ⟨t.query, t.research_goal, [l], [], []⟩, true)) := by
  constructor
  · intro w tasks hwf hsum
    obtain ⟨w2, rs, h, _, hfa⟩ := runSearchBatch_ok c cfg tid hsum tasks w hwf
    exact ⟨w2, rs, h, hfa.length_eq⟩
  · intro w t e l hmiss hred herr hs
    have hg : get_search_result w.db tid t.query = .ok none := by
      simp [get_search_result, hmiss]
    have htool : SearchTools.perform_search cfg c.searcher w.redis t.query =
        (⟨[], []⟩, w.redis) := by
      simp [SearchTools.perform_search, hred, herr]
    simp [perform_search, hg, htool, hs]

/-- C5 witness: with a concrete always-failing provider, a two-task batch
still returns two results, and the failed cache-missing task resolves to the
empty-sources result. -/

theorem C5_witness :
    (∃ (w2 : World) (rs : List DeepResearchSearchResult),
        runSearchBatch cSearchFail cfgHuman "t" emptyWorld
        [⟨"q1", "g1"⟩, ⟨"q2", "g2"⟩] = .ok (w2, rs) ∧ rs.length = 2) ∧
    perform_search cSearchFail cfgHuman emptyWorld "t" ⟨"q1", "g1"⟩ =
      .ok (⟨save_search_result emptyWorld.db "t" "q1" ⟨[], []⟩ "nothing found",
        emptyWorld.redis⟩, ⟨"q1", "g1", ["nothing found"], [], []⟩, true) :=
  ⟨(C5_search_failure_degrades cSearchFail cfgHuman "t").1 emptyWorld
      [⟨"q1", "g1"⟩, ⟨"q2", "g2"⟩]
      (by intro rid q row h; simp [lookupCacheRow, emptyWorld] at h)
      (fun _ _ _ => ⟨"nothing found", rfl⟩),
   (C5_search_failure_degrades cSearchFail cfgHuman "t").2 emptyWorld ⟨"q1", "g1"⟩
      "provider down" "nothing found" rfl rfl rfl rfl⟩

/-! ## C6 — fan-out completeness (corrected) -/

/-- C6 counterexample: the claim says a batch of N tasks always adds exactly
N results, failures included as placeholders.  With a failing summarizer the
concrete one-task batch aborts with an error: zero results, not one. -/

theorem C6_counterexample :
    runSearchBatch cSummFail cfgHuman "t" emptyWorld [⟨"qx", "gx"⟩] =
      .error (.summarizerFailed "rate limit") := rfl

/-- C6 amended: provided every task resolves — from the cache or by a
search-and-summarize whose summarizer call succeeds (provider failures are
absorbed as empty search results) over a well-formed store — a batch of N
tasks yields exactly N results, the i-th carrying the i-th task's query and
goal, with no omissions. -/

theorem C6_fanout_completeness (c : Collaborators) (cfg : Config) (tid : String)
    (w : World) (tasks : List DeepResearchSearchTask)
    (hwf : w.db.wellFormed)
    (hsum : ∀ q g ctx, ∃ l, c.summarizer q g ctx = Except.ok l) :
    ∃ w2 rs, runSearchBatch c cfg tid w tasks = .ok (w2, rs) ∧
      rs.length = tasks.length ∧
      List.Forall₂ (fun r t =>
        r.query = t.query ∧ r.research_goal = t.research_goal) rs tasks := by
  obtain ⟨w2, rs, h, _, hfa⟩ := runSearchBatch_ok c cfg tid hsum tasks w hwf
  exact ⟨w2, rs, h, hfa.length_eq, hfa⟩

/-- C6 witness: a concrete two-task batch over the empty store resolves to
exactly two results with matching queries. -/

theorem C6_witness :
    ∃ (w2 : World) (rs : List DeepResearchSearchResult),
      runSearchBatch cTotal cfgHuman "t" emptyWorld twoTasks = .ok (w2, rs) ∧
      rs.length = 2 ∧
      List.Forall₂ (fun r t =>
        r.query = t.query ∧ r.research_goal = t.research_goal) rs twoTasks := by
  obtain ⟨w2, rs, h1, h2, h3⟩ :=
    C6_fanout_completeness cTotal cfgHuman "t" emptyWorld twoTasks
      (by intro rid q row h; simp [lookupCacheRow, emptyWorld] at h)
      (fun _ _ _ => ⟨"learned facts", rfl⟩)
  exact ⟨w2, rs, h1, h2, h3⟩

/-! ## Engine run lemmas for C2 -/

theorem runSteps_add (c : Collaborators) (cfg : Config) (tid : String)
    (a b : Nat) : ∀ m : Machine,
    runSteps c cfg tid (a + b) m =
      match runSteps c cfg tid a m with
      | .error e => .error e
      | .ok m2 => runSteps c cfg tid b m2 := by
  induction a with
  | zero => intro m; simp [runSteps]
  | succ a ih =>
    intro m
    rw [Nat.succ_add]
    cases hs : stepNode c cfg tid m with
    | error e => simp [runSteps, hs]
    | ok m2 => simp [runSteps, hs, ih m2]

theorem done_absorb (c : Collaborators) (cfg : Config) (tid : String)
    {m : Machine} (h : m.node = .done) :
    ∀ n, runSteps c cfg tid n m = .ok m := by
  obtain ⟨nd, st, wd⟩ := m
  simp only at h
  subst h
  intro n
  induction n with
  | zero => rfl
  | succ n ih => simp [runSteps, stepNode, ih]

theorem runWithCheckpoints_ok (c : Collaborators) (cfg : Config) (tid : String) :
    ∀ (n : Nat) (m mn : Machine), runSteps c cfg tid n m = .ok mn →
    ∃ cks, runWithCheckpoints c cfg tid n m = .ok (cks, mn) ∧
      latestCheckpoint cks = some (checkpointOf n mn) := by
  intro n
  induction n with
  | zero =>
    intro m mn h
    cases h
    exact ⟨[checkpointOf 0 m], rfl, rfl⟩
  | succ n ih =>
    intro m mn h
    have hdec := runSteps_add c cfg tid n 1 m
    rw [Nat.add_comm n 1] at h
    rw [Nat.add_comm n 1, h] at hdec
    cases hn : runSteps c cfg tid n m with
    | error e => rw [hn] at hdec; cases hdec
    | ok mid =>
      rw [hn] at hdec
      simp only at hdec
      have hstep : stepNode c cfg tid mid = .ok mn := by
        cases hs : stepNode c cfg tid mid with
        | error e =>
          rw [show runSteps c cfg tid 1 mid = .error e by simp [runSteps, hs]] at hdec
          cases hdec
        | ok m2 =>
          rw [show runSteps c cfg tid 1 mid = .ok m2 by simp [runSteps, hs]] at hdec
          cases hdec
          rfl
      obtain ⟨cks, hck, hlat⟩ := ih m mid hn
      refine ⟨checkpointOf (n + 1) mn :: cks, ?_, rfl⟩
      simp [runWithCheckpoints, hck, hstep]

/-! ## C2 — resume correctness -/

/-- C2: for every run driven by deterministic collaborator stubs that
completes without interruption within `fuel` supersteps and produces
`final_report = R`, the same run with a forced crash after any node — losing
all process memory and resuming from the latest checkpoint plus the durable
store — produces the byte-identical `final_report`. -/

theorem C2_resume_correctness (c : Collaborators) (cfg : Config) (tid : String)
    (m : Machine) (fuel : Nat) (R : String)
    (h : finalReportOf c cfg tid m fuel = some R) :
    ∀ crashAt, runWithCrashResume c cfg tid m crashAt fuel = some R := by
  intro n
  cases hrun : runSteps c cfg tid fuel m with
  | error e => simp [finalReportOf, hrun] at h
  | ok mf =>
    rw [finalReportOf, hrun] at h
    simp only at h
    by_cases hdone : mf.node = .done
    · rw [if_pos hdone] at h
      -- the machine after n steps, for any n
      have hsplit : ∃ mn, runSteps c cfg tid n m = .ok mn ∧
          runSteps c cfg tid fuel mn = .ok mf := by
        by_cases hle : n ≤ fuel
        · have hdec := runSteps_add c cfg tid n (fuel - n) m
          rw [Nat.add_sub_cancel' hle, hrun] at hdec
          cases hn : runSteps c cfg tid n m with
          | error e => rw [hn] at hdec; cases hdec
          | ok mn =>
            rw [hn] at hdec
            simp only at hdec
            refine ⟨mn, rfl, ?_⟩
            have h2 := runSteps_add c cfg tid (fuel - n) n mn
            rw [Nat.sub_add_cancel hle, ← hdec] at h2
            simp only at h2
            rw [h2, done_absorb c cfg tid hdone]
        · have hdec := runSteps_add c cfg tid fuel (n - fuel) m
          rw [Nat.add_sub_cancel' (Nat.le_of_not_le hle), hrun] at hdec
          simp only at hdec
          rw [done_absorb c cfg tid hdone] at hdec
          exact ⟨mf, hdec, by rw [done_absorb c cfg tid hdone]⟩
      obtain ⟨mn, hn, hcont⟩ := hsplit
      obtain ⟨cks, hck, hlat⟩ := runWithCheckpoints_ok c cfg tid n m mn hn
      rw [runWithCrashResume, hck]
      simp only
      have hres : resumeMachine cks ⟨mn.world.db, mn.world.redis⟩ = some mn := by
        rw [resumeMachine, hlat]
        rfl
      rw [hres]
      simp only
      rw [finalReportOf, hcont]
      simp only
      rw [if_pos hdone]
      exact h
    · rw [if_neg hdone] at h
      cases h

/-- C2 witness: a concrete human-mode run (plan, queries, search, review with
no feedback, report) crashed after its third node and resumed. -/

theorem C2_witness :
    finalReportOf cTotal cfgHuman "t" (initMachine "query" "human" 5 emptyWorld) 5 =
      some "Report body.\n\n## Sources\n\n" ∧
    runWithCrashResume cTotal cfgHuman "t" (initMachine "query" "human" 5 emptyWorld) 3 5 =
      some "Report body.\n\n## Sources\n\n" :=
  ⟨rfl,
   C2_resume_correctness cTotal cfgHuman "t" (initMachine "query" "human" 5 emptyWorld)
     5 "Report body.\n\n## Sources\n\n" rfl 3⟩

/-! ## Search-round counting lemmas -/

theorem searchStepCount_zero (c : Collaborators) (cfg : Config) (tid : String)
    (m : Machine) : searchStepCount c cfg tid m 0 = 0 := rfl

theorem searchStepCount_succ (c : Collaborators) (cfg : Config) (tid : String)
    (m : Machine) (n : Nat) :
    searchStepCount c cfg tid m (n + 1) =
      searchStepCount c cfg tid m n +
        (if isSearchStepAt c cfg tid m n then 1 else 0) := by
  simp only [searchStepCount, List.range_succ, List.filter_append]
  cases hb : isSearchStepAt c cfg tid m n <;> simp [hb]

theorem searchStepCount_add (c : Collaborators) (cfg : Config) (tid : String)
    (a : Nat) (m mid : Machine) (h : runSteps c cfg tid a m = .ok mid) :
    ∀ b, searchStepCount c cfg tid m (a + b) =
      searchStepCount c cfg tid m a + searchStepCount c cfg tid mid b := by
  intro b
  induction b with
  | zero => simp [searchStepCount_zero]
  | succ b ih =>
    have hshift : runSteps c cfg tid (a + b) m = runSteps c cfg tid b mid := by
      rw [runSteps_add c cfg tid a b m, h]
    rw [show a + (b + 1) = (a + b) + 1 by omega, searchStepCount_succ, ih,
      searchStepCount_succ]
    simp [isSearchStepAt, hshift, Nat.add_assoc]

theorem stepNode_autoInv (c : Collaborators) (cfg : Config) (tid : String)
    {k : Nat} (hk : cfg.max_feedback_loops = k) {m m2 : Machine}
    (h : stepNode c cfg tid m = .ok m2) (hinv : AutoInv k m) : AutoInv k m2 := by
  obtain ⟨hmode, hle, hana⟩ := hinv
  obtain ⟨nd, st, wd⟩ := m
  simp only at hmode hle hana
  cases nd with
  | plan_research =>
    simp only [stepNode] at h
    cases h
    exact ⟨hmode, hle, by intro hx; cases hx⟩
  | generate_queries =>
    simp only [stepNode] at h
    cases h
    refine ⟨hmode, hle, ?_⟩
    intro hx
    simp only at hx
    split at hx <;> cases hx
  | perform_search =>
    simp only [stepNode] at h
    cases hb : runSearchBatch c cfg tid wd st.serp_queries with
    | error e => rw [hb] at h; cases h
    | ok p =>
      obtain ⟨w2, rs⟩ := p
      rw [hb] at h
      simp only at h
      cases h
      refine ⟨hmode, hle, ?_⟩
      intro hx
      simp only at hx ⊢
      simp only [evaluate_progress, hmode, if_pos] at hx
      split at hx
      · rw [hk] at *; omega
      · cases hx
  | review_step =>
    simp only [stepNode] at h
    cases h
    refine ⟨hmode, hle, ?_⟩
    intro hx
    simp only [check_human_feedback] at hx
    split at hx <;> cases hx
  | analyze_research_gaps =>
    have hlt : st.feedback_loop_count < k := hana rfl
    simp only [stepNode] at h
    split at h <;> cases h <;>
      exact ⟨hmode, by simp only; omega, by
        intro hx
        simp only [check_auto_feedback] at hx
        split at hx <;> cases hx⟩
  | generate_feedback_queries =>
    simp only [stepNode] at h
    cases h
    refine ⟨hmode, hle, ?_⟩
    intro hx
    simp only at hx
    split at hx <;> cases hx
  | write_report =>
    simp only [stepNode] at h
    cases hw : write_report_post
        (st.search_results.flatMap (fun r => r.sources))
        (c.reportWriter st.report_plan (learningsStr st.search_results)
          st.report_pages).toList with
    | error e => rw [hw] at h; cases h
    | ok final =>
      rw [hw] at h
      simp only at h
      cases h
      exact ⟨hmode, hle, by intro hx; cases hx⟩
  | done =>
    simp only [stepNode] at h
    cases h
    exact ⟨hmode, hle, hana⟩

theorem runSteps_autoInv (c : Collaborators) (cfg : Config) (tid : String)
    {k : Nat} (hk : cfg.max_feedback_loops = k) :
    ∀ (n : Nat) (m m2 : Machine), AutoInv k m →
      runSteps c cfg tid n m = .ok m2 → AutoInv k m2 := by
  intro n
  induction n with
  | zero => intro m m2 hinv h; cases h; exact hinv
  | succ n ih =>
    intro m m2 hinv h
    simp only [runSteps] at h
    cases hs : stepNode c cfg tid m with
    | error e => rw [hs] at h; cases h
    | ok mid =>
      rw [hs] at h
      exact ih mid m2 (stepNode_autoInv c cfg tid hk hs hinv) h

/-! ## The auto-mode feedback cycle (C1) -/

theorem auto_cycle (c : Collaborators) (cfg : Config) (tid : String)
    (hsum : ∀ q g ctx, ∃ l, c.summarizer q g ctx = Except.ok l)
    (hgap : ∀ p l, containsSATISFIED (c.gapAnalyst p l) = false ∧ c.gapAnalyst p l ≠ "")
    (hfq : ∀ p l f, c.feedbackQueryGen p l f ≠ [])
    (m : Machine) (hnode : m.node = .perform_search)
    (hmode : m.state.feedback_mode = "auto") (hwf : m.world.db.wellFormed)
    (hlt : m.state.feedback_loop_count < cfg.max_feedback_loops) :
    ∃ m1 m2 m3 : Machine,
      runSteps c cfg tid 1 m = .ok m1 ∧ m1.node = .analyze_research_gaps ∧
      runSteps c cfg tid 2 m = .ok m2 ∧ m2.node = .generate_feedback_queries ∧
      runSteps c cfg tid 3 m = .ok m3 ∧ m3.node = .perform_search ∧
      m3.state.feedback_mode = "auto" ∧ m3.world.db.wellFormed ∧
      m3.state.feedback_loop_count = m.state.feedback_loop_count + 1 := by
  obtain ⟨nd, st, wd⟩ := m
  simp only at hnode hmode hwf hlt ⊢
  subst hnode
  obtain ⟨w2, rs, hb, hwf2, _⟩ := runSearchBatch_ok c cfg tid hsum st.serp_queries wd hwf
  have hstep1 : stepNode c cfg tid ⟨.perform_search, st, wd⟩ =
      .ok ⟨.analyze_research_gaps,
        { st with search_results := st.search_results ++ rs }, w2⟩ := by
    simp only [stepNode, hb]
    simp [evaluate_progress, hmode, hlt]
  have hfb := hgap st.report_plan (learningsStr (st.search_results ++ rs))
  have hfbemp : (c.gapAnalyst st.report_plan
      (learningsStr (st.search_results ++ rs))).isEmpty = false := by
    cases hemp : (c.gapAnalyst st.report_plan
        (learningsStr (st.search_results ++ rs))).isEmpty
    · rfl
    · exact absurd ((String.isEmpty_iff _).mp hemp) hfb.2
  have hstep2 : stepNode c cfg tid ⟨.analyze_research_gaps,
      { st with search_results := st.search_results ++ rs }, w2⟩ =
      .ok ⟨.generate_feedback_queries,
        { st with
          search_results := st.search_results ++ rs
          user_feedback := some (c.gapAnalyst st.report_plan
            (learningsStr (st.search_results ++ rs)))
          feedback_loop_count := st.feedback_loop_count + 1 }, w2⟩ := by
    simp only [stepNode]
    simp [hfb.1, check_auto_feedback, truthyFeedback, hfbemp]
  have hqs := hfq st.report_plan (learningsStr (st.search_results ++ rs))
    (c.gapAnalyst st.report_plan (learningsStr (st.search_results ++ rs)))
  have hqsemp : (c.feedbackQueryGen st.report_plan
      (learningsStr (st.search_results ++ rs))
      (c.gapAnalyst st.report_plan
        (learningsStr (st.search_results ++ rs)))).isEmpty = false := by
    cases hemp : (c.feedbackQueryGen st.report_plan
        (learningsStr (st.search_results ++ rs))
        (c.gapAnalyst st.report_plan
          (learningsStr (st.search_results ++ rs)))).isEmpty
    · rfl
    · exact absurd (List.isEmpty_iff.mp hemp) hqs
  have hstep3 : stepNode c cfg tid ⟨.generate_feedback_queries,
      { st with
        search_results := st.search_results ++ rs
        user_feedback := some (c.gapAnalyst st.report_plan
          (learningsStr (st.search_results ++ rs)))
        feedback_loop_count := st.feedback_loop_count + 1 }, w2⟩ =
      .ok ⟨.perform_search,
        { st with
          search_results := st.search_results ++ rs
          serp_queries := c.feedbackQueryGen st.report_plan
            (learningsStr (st.search_results ++ rs))
            (c.gapAnalyst st.report_plan
              (learningsStr (st.search_results ++ rs)))
          user_feedback := none
          feedback_loop_count := st.feedback_loop_count + 1 }, w2⟩ := by
    simp only [stepNode]
    simp [hqsemp]
  refine ⟨⟨.analyze_research_gaps,
      { st with search_results := st.search_results ++ rs }, w2⟩,
    ⟨.generate_feedback_queries,
      { st with
        search_results := st.search_results ++ rs
        user_feedback := some (c.gapAnalyst st.report_plan
          (learningsStr (st.search_results ++ rs)))
        feedback_loop_count := st.feedback_loop_count + 1 }, w2⟩,
    ⟨.perform_search,
      { st with
        search_results := st.search_results ++ rs
        serp_queries := c.feedbackQueryGen st.report_plan
          (learningsStr (st.search_results ++ rs))
          (c.gapAnalyst st.report_plan
            (learningsStr (st.search_results ++ rs)))
        user_feedback := none
        feedback_loop_count := st.feedback_loop_count + 1 }, w2⟩,
    ?_, rfl, ?_, rfl, ?_, rfl, hmode, hwf2, rfl⟩
  · simp [runSteps, hstep1]
  · simp [runSteps, hstep1, hstep2]
  · simp [runSteps, hstep1, hstep2, hstep3]

theorem auto_finish (c : Collaborators) (cfg : Config) (tid : String)
    (hsum : ∀ q g ctx, ∃ l, c.summarizer q g ctx = Except.ok l)
    (m : Machine) (hnode : m.node = .perform_search)
    (hmode : m.state.feedback_mode = "auto") (hwf : m.world.db.wellFormed)
    (hge : ¬ m.state.feedback_loop_count < cfg.max_feedback_loops) :
    ∃ mfin : Machine, runSteps c cfg tid 1 m = .ok mfin ∧
      mfin.node = .write_report ∧
      mfin.state.feedback_loop_count = m.state.feedback_loop_count := by
  obtain ⟨nd, st, wd⟩ := m
  simp only at hnode hmode hwf hge ⊢
  subst hnode
  obtain ⟨w2, rs, hb, hwf2, _⟩ := runSearchBatch_ok c cfg tid hsum st.serp_queries wd hwf
  have hstep : stepNode c cfg tid ⟨.perform_search, st, wd⟩ =
      .ok ⟨.write_report,
        { st with search_results := st.search_results ++ rs }, w2⟩ := by
    simp only [stepNode, hb]
    simp [evaluate_progress, hmode, hge]
  exact ⟨⟨.write_report, { st with search_results := st.search_results ++ rs }, w2⟩,
    by simp [runSteps, hstep], rfl, rfl⟩

/-- From a machine about to run SEARCH with `r` feedback rounds left before
the bound, the run reaches `write_report` in exactly `3r + 1` supersteps,
having started `r + 1` SEARCH rounds, with the loop counter at the bound. -/

theorem auto_run_from_search (c : Collaborators) (cfg : Config) (tid : String)
    (hsum : ∀ q g ctx, ∃ l, c.summarizer q g ctx = Except.ok l)
    (hgap : ∀ p l, containsSATISFIED (c.gapAnalyst p l) = false ∧ c.gapAnalyst p l ≠ "")
    (hfq : ∀ p l f, c.feedbackQueryGen p l f ≠ []) :
    ∀ (r : Nat) (m : Machine), m.node = .perform_search →
    m.state.feedback_mode = "auto" → m.world.db.wellFormed →
    m.state.feedback_loop_count + r = cfg.max_feedback_loops →
    ∃ mfin : Machine, runSteps c cfg tid (3 * r + 1) m = .ok mfin ∧
      mfin.node = .write_report ∧
      mfin.state.feedback_loop_count = cfg.max_feedback_loops ∧
      searchStepCount c cfg tid m (3 * r + 1) = r + 1 := by
  intro r
  induction r with
  | zero =>
    intro m hnode hmode hwf hsumk
    obtain ⟨mfin, hrun, hfin, hloop⟩ := auto_finish c cfg tid hsum m hnode hmode hwf
      (by omega)
    refine ⟨mfin, by simpa using hrun, hfin, by omega, ?_⟩
    have h0 : isSearchStepAt c cfg tid m 0 = true := by
      simp [isSearchStepAt, runSteps, hnode]
    simp [searchStepCount_succ, searchStepCount_zero, h0]
  | succ r ih =>
    intro m hnode hmode hwf hsumk
    obtain ⟨m1, m2, m3, hr1, hn1, hr2, hn2, hr3, hn3, hmode3, hwf3, hloop3⟩ :=
      auto_cycle c cfg tid hsum hgap hfq m hnode hmode hwf (by omega)
    obtain ⟨mfin, hrunf, hfinf, hloopf, hcountf⟩ := ih m3 hn3 hmode3 hwf3 (by omega)
    have htotal : runSteps c cfg tid (3 * (r + 1) + 1) m = .ok mfin := by
      have := runSteps_add c cfg tid 3 (3 * r + 1) m
      rw [hr3] at this
      simp only at this
      rw [show 3 * (r + 1) + 1 = 3 + (3 * r + 1) by omega, this, hrunf]
    refine ⟨mfin, htotal, hfinf, hloopf, ?_⟩
    have hcount3 : searchStepCount c cfg tid m 3 = 1 := by
      have h0 : isSearchStepAt c cfg tid m 0 = true := by
        simp [isSearchStepAt, runSteps, hnode]
      have h1 : isSearchStepAt c cfg tid m 1 = false := by
        simp [isSearchStepAt, hr1, hn1]
      have h2 : isSearchStepAt c cfg tid m 2 = false := by
        simp [isSearchStepAt, hr2, hn2]
      simp [show (3 : Nat) = 0 + 1 + 1 + 1 by rfl, searchStepCount_succ,
        searchStepCount_zero, h0, h1, h2]
    rw [show 3 * (r + 1) + 1 = 3 + (3 * r + 1) by omega,
      searchStepCount_add c cfg tid 3 m m3 hr3, hcount3, hcountf]
    omega

/-! ## C1 — auto-loop bound (corrected) -/

/-- C1 counterexample: with `max_feedback_loops = 1` and an always-gap
analyst, the concrete auto run executes 2 SEARCH rounds before reaching
`write_report` (after the 1st round it routes to the gap analysis, not to
synthesis), refuting "exactly k completed SEARCH rounds". -/

theorem C1_counterexample :
    searchStepCount cTotal cfgAuto1 "t" (initMachine "q" "auto" 5 emptyWorld) 6 = 2 ∧
    (runSteps cTotal cfgAuto1 "t" 6 (initMachine "q" "auto" 5 emptyWorld)).map
      (fun m => m.node) = .ok .write_report ∧
    (runSteps cTotal cfgAuto1 "t" 3 (initMachine "q" "auto" 5 emptyWorld)).map
      (fun m => m.node) = .ok .analyze_research_gaps :=
  ⟨rfl, rfl, rfl⟩

/-- C1 amended: in AUTO mode with `max_feedback_loops = k`, a gap analyst
reporting a (nonempty, non-SATISFIED) gap on every invocation, nonempty
generated query batches, a well-formed store and a succeeding summarizer, the
run reaches the report-writing step after exactly `k + 1` completed SEARCH
rounds — the initial round plus `k` feedback rounds — with the loop counter
equal to `k` there, and in every reachable state the loop counter never
exceeds `k`. -/

theorem C1_auto_loop_bound (c : Collaborators) (cfg : Config) (tid q : String)
    (pages : Nat) (w : World)
    (hwf : w.db.wellFormed)
    (hsum : ∀ qq g ctx, ∃ l, c.summarizer qq g ctx = Except.ok l)
    (hq : ∀ p, c.queryGen p ≠ [])
    (hfq : ∀ p l f, c.feedbackQueryGen p l f ≠ [])
    (hgap : ∀ p l, containsSATISFIED (c.gapAnalyst p l) = false ∧
      c.gapAnalyst p l ≠ "") :
    (∃ mfin : Machine,
      runSteps c cfg tid (3 * cfg.max_feedback_loops + 3)
        (initMachine q "auto" pages w) = .ok mfin ∧
      mfin.node = .write_report ∧
      mfin.state.feedback_loop_count = cfg.max_feedback_loops) ∧
    searchStepCount c cfg tid (initMachine q "auto" pages w)
      (3 * cfg.max_feedback_loops + 3) = cfg.max_feedback_loops + 1 ∧
    (∀ (n : Nat) (m2 : Machine),
      runSteps c cfg tid n (initMachine q "auto" pages w) = .ok m2 →
      m2.state.feedback_loop_count ≤ cfg.max_feedback_loops) := by
  have hqemp : (c.queryGen (c.planner q)).isEmpty = false := by
    cases hemp : (c.queryGen (c.planner q)).isEmpty
    · rfl
    · exact absurd (List.isEmpty_iff.mp hemp) (hq (c.planner q))
  have hstep0 : stepNode c cfg tid (initMachine q "auto" pages w) =
      .ok ⟨.generate_queries,
        { initState q "auto" pages with report_plan := c.planner q }, w⟩ := by
    simp [stepNode, initMachine, initState]
  have hstep1 : stepNode c cfg tid ⟨.generate_queries,
      { initState q "auto" pages with report_plan := c.planner q }, w⟩ =
      .ok ⟨.perform_search,
        { initState q "auto" pages with
          report_plan := c.planner q
          serp_queries := c.queryGen (c.planner q) }, w⟩ := by
    simp only [stepNode]
    simp [hqemp, initState]
  have hrun2 : runSteps c cfg tid 2 (initMachine q "auto" pages w) =
      .ok ⟨.perform_search,
        { initState q "auto" pages with
          report_plan := c.planner q
          serp_queries := c.queryGen (c.planner q) }, w⟩ := by
    simp [runSteps, hstep0, hstep1]
  obtain ⟨mfin, hrunf, hnodef, hloopf, hcountf⟩ :=
    auto_run_from_search c cfg tid hsum hgap hfq cfg.max_feedback_loops
      ⟨.perform_search,
        { initState q "auto" pages with
          report_plan := c.planner q
          serp_queries := c.queryGen (c.planner q) }, w⟩
      rfl rfl hwf (by simp [initState])
  have htotal : runSteps c cfg tid (3 * cfg.max_feedback_loops + 3)
      (initMachine q "auto" pages w) = .ok mfin := by
    have hadd := runSteps_add c cfg tid 2 (3 * cfg.max_feedback_loops + 1)
      (initMachine q "auto" pages w)
    rw [hrun2] at hadd
    simp only at hadd
    rw [show 3 * cfg.max_feedback_loops + 3 = 2 + (3 * cfg.max_feedback_loops + 1)
      by omega, hadd, hrunf]
  refine ⟨⟨mfin, htotal, hnodef, hloopf⟩, ?_, ?_⟩
  · have h0 : isSearchStepAt c cfg tid (initMachine q "auto" pages w) 0 = false := by
      simp [isSearchStepAt, runSteps, initMachine]
    have h1 : isSearchStepAt c cfg tid (initMachine q "auto" pages w) 1 = false := by
      simp [isSearchStepAt, runSteps, hstep0]
    have hcount2 : searchStepCount c cfg tid (initMachine q "auto" pages w) 2 = 0 := by
      simp [show (2 : Nat) = 0 + 1 + 1 by rfl, searchStepCount_succ,
        searchStepCount_zero, h0, h1]
    rw [show 3 * cfg.max_feedback_loops + 3 = 2 + (3 * cfg.max_feedback_loops + 1)
      by omega, searchStepCount_add c cfg tid 2 _ _ hrun2, hcount2, hcountf]
    omega
  · intro n m2 hrun
    have hinv0 : AutoInv cfg.max_feedback_loops (initMachine q "auto" pages w) :=
      ⟨rfl, by simp [initMachine, initState], by intro hx; cases hx⟩
    exact (runSteps_autoInv c cfg tid rfl n _ m2 hinv0 hrun).2.1

/-- C1 witness: the amended bound at `k = 1` on concrete stubs — the run
reaches `write_report` after 6 supersteps having run 2 SEARCH rounds. -/

theorem C1_witness :
    searchStepCount cTotal cfgAuto1 "w" (initMachine "query" "auto" 5 emptyWorld) 6 = 2 ∧
    (runSteps cTotal cfgAuto1 "w" 6 (initMachine "query" "auto" 5 emptyWorld)).map
      (fun m => m.node) = .ok .write_report := by
  have hbig := C1_auto_loop_bound cTotal cfgAuto1 "w" "query" 5 emptyWorld
    (by intro rid qq row h; simp [lookupCacheRow, emptyWorld] at h)
    (fun _ _ _ => ⟨"learned facts", rfl⟩)
    (fun _ => List.cons_ne_nil _ _)
    (fun _ _ _ => List.cons_ne_nil _ _)
    (fun _ _ =>
      ⟨(by decide : containsSATISFIED "more research needed" = false),
       (by decide : ("more research needed" : String) ≠ "")⟩)
  obtain ⟨⟨mfin, hrun, hnode, _⟩, hcount, _⟩ := hbig
  refine ⟨hcount, ?_⟩
  rw [show (6 : Nat) = 3 * cfgAuto1.max_feedback_loops + 3 by rfl, hrun]
  simp [Except.map, hnode]

/-! ## Occurrences of bracketed markers under `str.replace` (C4, C10)

All patterns the renumbering replaces are of the shape `[token]` with a
bracket-free token, so distinct markers never overlap in the text; these
lemmas make that precise, ending in `replace_master`, which characterises
exactly which bracketed markers occur after one `str.replace`. -/

theorem cons_pref_brak {w : Chars} {c : Char} {X : Chars} :
    brak w <+: c :: X ↔ c = '[' ∧ (w ++ [']']) <+: X := by
  constructor
  · intro h
    rcases List.cons_prefix_cons.mp h with ⟨h1, h2⟩
    exact ⟨h1.symm, h2⟩
  · intro ⟨h1, h2⟩
    exact List.cons_prefix_cons.mpr ⟨h1.symm, h2⟩

/-- `w]` is a prefix of `d]X` exactly when `w = d`, for `']'`-free `w`, `d`. -/

theorem pref_rb : ∀ (w d : Chars) (X : Chars), ']' ∉ w → ']' ∉ d →
    ((w ++ [']']) <+: (d ++ ']' :: X) ↔ w = d) := by
  intro w
  induction w with
  | nil =>
    intro d X hw hd
    cases d with
    | nil => simp
    | cons e d' =>
      simp only [List.nil_append]
      constructor
      · intro h
        rcases List.cons_prefix_cons.mp h with ⟨h1, _⟩
        subst h1
        exact absurd (List.mem_cons_self _ _) hd
      · intro h; cases h
  | cons a w' ih =>
    intro d X hw hd
    cases d with
    | nil =>
      simp only [List.nil_append, List.cons_append]
      constructor
      · intro h
        rcases List.cons_prefix_cons.mp h with ⟨h1, _⟩
        subst h1
        exact absurd (List.mem_cons_self _ _) hw
      · intro h; cases h
    | cons e d' =>
      simp only [List.cons_append]
      rw [List.cons_prefix_cons]
      constructor
      · intro ⟨h1, h2⟩
        have := (ih d' X (fun hm => hw (List.mem_cons_of_mem _ hm))
          (fun hm => hd (List.mem_cons_of_mem _ hm))).mp h2
        rw [h1, this]
      · intro h
        injection h with h1 h2
        exact ⟨h1, (ih d' X (fun hm => hw (List.mem_cons_of_mem _ hm))
          (fun hm => hd (List.mem_cons_of_mem _ hm))).mpr h2⟩

/-- A bracketed marker cannot start inside a `'['`-free region. -/

theorem infix_skip {w : Chars} : ∀ (R X : Chars), '[' ∉ R →
    (brak w <:+: R ++ ']' :: X ↔ brak w <:+: ']' :: X) := by
  intro R
  induction R with
  | nil => intro X h; rfl
  | cons r R' ih =>
    intro X hr
    simp only [List.cons_append]
    rw [List.infix_cons_iff]
    constructor
    · rintro (h | h)
      · rcases cons_pref_brak.mp h with ⟨h1, _⟩
        subst h1
        exact absurd (List.mem_cons_self _ _) hr
      · exact (ih X (fun hm => hr (List.mem_cons_of_mem _ hm))).mp h
    · intro h
      exact Or.inr ((ih X (fun hm => hr (List.mem_cons_of_mem _ hm))).mpr h)

/-- Occurrences of a bracketed marker in `[d]X`: the marker is `[d]` itself
or lies wholly within `X`. -/

theorem brak_infix_append {d w : Chars} (X : Chars) (hd : BFree d) (hw : BFree w) :
    brak w <:+: brak d ++ X ↔ w = d ∨ brak w <:+: X := by
  have hshape : brak d ++ X = '[' :: (d ++ ']' :: X) := by simp [brak]
  rw [hshape, List.infix_cons_iff]
  constructor
  · rintro (h | h)
    · rcases cons_pref_brak.mp h with ⟨_, h2⟩
      exact Or.inl ((pref_rb w d X hw.2 hd.2).mp h2)
    · rw [infix_skip d X hd.1] at h
      rcases List.infix_cons_iff.mp h with h | h
      · rcases cons_pref_brak.mp h with ⟨h1, _⟩
        cases h1
      · exact Or.inr h
  · rintro (rfl | h)
    · exact Or.inl (by
        rw [show ('[' : Char) :: (w ++ ']' :: X) = brak w ++ X by simp [brak]]
        exact List.prefix_append (brak w) X)
    · refine Or.inr ?_
      rw [infix_skip d X hd.1]
      exact h.trans (List.infix_cons (List.infix_refl X))

/-- Scanning for `[u]` does not disturb a bracket-free prefix `w]`: the
replaced text begins with `w]` exactly when the original did. -/

theorem replace_pref {u d : Chars} (hu : '[' ∉ u) :
    ∀ (fuel : Nat) (t : Chars), t.length ≤ fuel → ∀ w : Chars, '[' ∉ w →
    ((w ++ [']']) <+: replaceAllGo (brak u) (brak d) fuel t ↔ (w ++ [']']) <+: t) := by
  intro fuel
  induction fuel with
  | zero =>
    intro t ht w hw
    have hnil : t = [] := List.eq_nil_of_length_eq_zero (Nat.le_zero.mp ht)
    subst hnil
    rfl
  | succ fuel ih =>
    intro t ht w hw
    cases t with
    | nil => rfl
    | cons c t' =>
      have hlen : t'.length ≤ fuel := by simp only [List.length_cons] at ht; omega
      by_cases hpre : (brak u).isPrefixOf (c :: t') = true
      · have hc : '[' = c := by
          have hp := List.isPrefixOf_iff_prefix.mp hpre
          exact (List.cons_prefix_cons.mp (by simpa [brak] using hp)).1
        simp only [replaceAllGo, if_pos hpre]
        refine iff_of_false ?_ ?_
        · intro h
          have hshape : brak d ++ replaceAllGo (brak u) (brak d) fuel
              (List.drop ((brak u).length - 1) t') =
              '[' :: ((d ++ [']']) ++ replaceAllGo (brak u) (brak d) fuel
                (List.drop ((brak u).length - 1) t')) := by simp [brak]
          rw [hshape] at h
          cases w with
          | nil => exact absurd (List.cons_prefix_cons.mp h).1 (by decide)
          | cons a w' =>
            have ha := (List.cons_prefix_cons.mp h).1
            subst ha
            exact hw (List.mem_cons_self _ _)
        · intro h
          cases w with
          | nil =>
            have hthis : ']' = c := by simpa using h
            rw [← hc] at hthis
            exact absurd hthis (by decide)
          | cons a w' =>
            obtain ⟨ha, -⟩ : a = c ∧ w' ++ [']'] <+: t' := by simpa using h
            rw [← hc] at ha
            subst ha
            exact hw (List.mem_cons_self _ _)
      · simp only [replaceAllGo, if_neg hpre]
        cases w with
        | nil =>
          simp only [List.nil_append]
          constructor
          · intro h
            exact List.cons_prefix_cons.mpr
              ⟨(List.cons_prefix_cons.mp h).1, List.nil_prefix⟩
          · intro h
            exact List.cons_prefix_cons.mpr
              ⟨(List.cons_prefix_cons.mp h).1, List.nil_prefix⟩
        | cons a w' =>
          simp only [List.cons_append]
          rw [List.cons_prefix_cons, List.cons_prefix_cons]
          have hw' : '[' ∉ w' := fun hm => hw (List.mem_cons_of_mem _ hm)
          constructor
          · intro ⟨h1, h2⟩
            exact ⟨h1, (ih t' hlen w' hw').mp h2⟩
          · intro ⟨h1, h2⟩
            exact ⟨h1, (ih t' hlen w' hw').mpr h2⟩

/-- Which bracketed markers occur after `s.replace('[u]', '[d]')`: the
inserted `[d]` (when a `[u]` or `[d]` was present), and every marker other
than `[u]` and `[d]` that already occurred. -/

theorem replace_master {u d : Chars} (hu : BFree u) (hd : BFree d) (hne : u ≠ d) :
    ∀ (fuel : Nat) (s : Chars), s.length ≤ fuel → ∀ w : Chars, BFree w →
    (brak w <:+: replaceAllGo (brak u) (brak d) fuel s ↔
      (w = d ∧ (brak u <:+: s ∨ brak d <:+: s)) ∨
      (w ≠ u ∧ w ≠ d ∧ brak w <:+: s)) := by
  intro fuel
  induction fuel with
  | zero =>
    intro s hs w hw
    have hnil : s = [] := List.eq_nil_of_length_eq_zero (Nat.le_zero.mp hs)
    subst hnil
    simp [replaceAllGo, brak]
  | succ fuel ih =>
    intro s hs w hw
    cases s with
    | nil => simp [replaceAllGo, brak]
    | cons c t =>
      have hlen : t.length ≤ fuel := by simp only [List.length_cons] at hs; omega
      by_cases hpre : (brak u).isPrefixOf (c :: t) = true
      · have hsplit : c :: t = brak u ++ List.drop ((brak u).length - 1) t := by
          have h1 := List.prefix_iff_eq_append.mp (List.isPrefixOf_iff_prefix.mp hpre)
          rw [← h1]
          simp [brak]
        have hdlen : (List.drop ((brak u).length - 1) t).length ≤ fuel := by
          have := List.length_drop ((brak u).length - 1) t
          omega
        simp only [replaceAllGo, if_pos hpre]
        rw [brak_infix_append _ hd hw,
          ih (List.drop ((brak u).length - 1) t) hdlen w hw]
        have hu_s : brak u <:+: c :: t := by
          rw [hsplit]
          exact (List.prefix_append _ _).isInfix
        have hd_s : brak d <:+: c :: t ↔
            brak d <:+: List.drop ((brak u).length - 1) t := by
          rw [hsplit, brak_infix_append _ hu hd]
          exact or_iff_right (fun h => hne (h.symm))
        have hw_s : brak w <:+: c :: t ↔
            (w = u ∨ brak w <:+: List.drop ((brak u).length - 1) t) := by
          rw [hsplit, brak_infix_append _ hu hw]
        rw [hd_s, hw_s]
        by_cases hwd : w = d
        · subst hwd
          simp [hu_s, hne]
          try tauto
        · by_cases hwu : w = u
          · subst hwu
            simp [hne, hwd]
            try tauto
          · simp [hwd, hwu]
            try tauto
      · have hnopref : ¬ brak u <+: (c :: t) :=
          fun hcon => hpre (List.isPrefixOf_iff_prefix.mpr hcon)
        have hpref_t : brak w <+: c :: replaceAllGo (brak u) (brak d) fuel t ↔
            brak w <+: c :: t := by
          rw [cons_pref_brak, cons_pref_brak]
          constructor
          · intro ⟨h1, h2⟩
            exact ⟨h1, (replace_pref hu.1 fuel t hlen w hw.1).mp h2⟩
          · intro ⟨h1, h2⟩
            exact ⟨h1, (replace_pref hu.1 fuel t hlen w hw.1).mpr h2⟩
        simp only [replaceAllGo, if_neg hpre, List.infix_cons_iff]
        rw [hpref_t, ih t hlen w hw]
        by_cases hwu : w = u
        · subst hwu
          simp [hnopref, hne]
          try tauto
        · by_cases hwd : w = d
          · subst hwd
            simp [hwu]
            try tauto
          · simp [hwu, hwd]
            try tauto

theorem replaceAll_brak_master {u d : Chars} (hu : BFree u) (hd : BFree d)
    (hne : u ≠ d) (s : Chars) {w : Chars} (hw : BFree w) :
    brak w <:+: replaceAll (brak u) (brak d) s ↔
      (w = d ∧ (brak u <:+: s ∨ brak d <:+: s)) ∨
      (w ≠ u ∧ w ≠ d ∧ brak w <:+: s) := by
  unfold replaceAll
  rw [if_neg (by simp [brak])]
  exact replace_master hu hd hne s.length s le_rfl w hw

/-- Absence of a marker is preserved by the renumbering fold, provided the
marker collides with no replacement numeral of the fold. -/

theorem renumberFrom_absence :
    ∀ (us : List Chars) (start : Nat) (s w : Chars), BFree w →
      (∀ u ∈ us, BFree u) →
      (∀ u ∈ us, ∀ j, start ≤ j → j < start + us.length → u ≠ natChars j) →
      (∀ j, start ≤ j → j < start + us.length → w ≠ natChars j) →
      ¬ brak w <:+: s → ¬ brak w <:+: renumberFrom start us s := by
  intro us
  induction us with
  | nil => intro start s w _ _ _ _ habs; exact habs
  | cons u us' ih =>
    intro start s w hw hbf hcoll hwcoll habs
    have hbu : BFree u := hbf u (List.mem_cons_self _ _)
    have hneud : u ≠ natChars start :=
      hcoll u (List.mem_cons_self _ _) start le_rfl (by simp)
    simp only [renumberFrom]
    apply ih (start + 1)
    · exact hw
    · intro x hx; exact hbf x (List.mem_cons_of_mem _ hx)
    · intro x hx j h1 h2
      exact hcoll x (List.mem_cons_of_mem _ hx) j (by omega)
        (by simp only [List.length_cons]; omega)
    · intro j h1 h2
      exact hwcoll j (by omega) (by simp only [List.length_cons]; omega)
    · rw [replaceAll_brak_master hbu (natChars_bfree start) hneud s hw]
      rintro (⟨hwd, _⟩ | ⟨_, _, hmem⟩)
      · exact hwcoll start le_rfl (by simp) hwd
      · exact habs hmem

/-- Presence of a marker distinct from every replaced id is preserved by the
renumbering fold. -/

theorem renumberFrom_presence :
    ∀ (us : List Chars) (start : Nat) (s w : Chars), BFree w →
      (∀ u ∈ us, BFree u) → w ∉ us →
      (∀ u ∈ us, ∀ j, start ≤ j → j < start + us.length → u ≠ natChars j) →
      brak w <:+: s → brak w <:+: renumberFrom start us s := by
  intro us
  induction us with
  | nil => intro start s w _ _ _ _ h; exact h
  | cons u us' ih =>
    intro start s w hw hbf hnm hcoll hocc
    have hbu : BFree u := hbf u (List.mem_cons_self _ _)
    have hneud : u ≠ natChars start :=
      hcoll u (List.mem_cons_self _ _) start le_rfl (by simp)
    have hocc1 : brak w <:+: replaceAll (brak u) (brak (natChars start)) s := by
      rw [replaceAll_brak_master hbu (natChars_bfree start) hneud s hw]
      by_cases hwd : w = natChars start
      · exact Or.inl ⟨hwd, Or.inr (hwd ▸ hocc)⟩
      · refine Or.inr ⟨?_, hwd, hocc⟩
        intro hwe
        exact hnm (hwe ▸ List.mem_cons_self _ _)
    simp only [renumberFrom]
    apply ih (start + 1) _ w hw
    · intro x hx; exact hbf x (List.mem_cons_of_mem _ hx)
    · intro hx; exact hnm (List.mem_cons_of_mem _ hx)
    · intro x hx j h1 h2
      exact hcoll x (List.mem_cons_of_mem _ hx) j (by omega)
        (by simp only [List.length_cons]; omega)
    · exact hocc1

/-- The renumbering fold, for pairwise-distinct bracket-free ids colliding
with no replacement numeral: every replaced marker `[u_i]` is gone from the
result, and `[start+i]` is present whenever `[u_i]` occurred. -/

theorem renumberFrom_spec :
    ∀ (us : List Chars) (start : Nat) (s : Chars),
      (∀ u ∈ us, BFree u) → us.Nodup →
      (∀ u ∈ us, ∀ j, start ≤ j → j < start + us.length → u ≠ natChars j) →
      (∀ u ∈ us, ¬ brak u <:+: renumberFrom start us s) ∧
      (∀ i (hi : i < us.length), brak (us.get ⟨i, hi⟩) <:+: s →
        brak (natChars (start + i)) <:+: renumberFrom start us s) := by
  intro us
  induction us with
  | nil =>
    intro start s _ _ _
    exact ⟨fun u hu => absurd hu (List.not_mem_nil u), fun i hi => absurd hi (by simp)⟩
  | cons u us' ih =>
    intro start s hbf hnd hcoll
    have hbu : BFree u := hbf u (List.mem_cons_self _ _)
    have hd := natChars_bfree start
    have hund : u ∉ us' := (List.nodup_cons.mp hnd).1
    have hnd' : us'.Nodup := (List.nodup_cons.mp hnd).2
    have hneud : u ≠ natChars start :=
      hcoll u (List.mem_cons_self _ _) start le_rfl (by simp)
    have hbf' : ∀ x ∈ us', BFree x := fun x hx => hbf x (List.mem_cons_of_mem _ hx)
    have hcoll' : ∀ x ∈ us', ∀ j, start + 1 ≤ j → j < start + 1 + us'.length →
        x ≠ natChars j := by
      intro x hx j h1 h2
      exact hcoll x (List.mem_cons_of_mem _ hx) j (by omega)
        (by simp only [List.length_cons]; omega)
    obtain ⟨ihA, ihB⟩ := ih (start + 1)
      (replaceAll (brak u) (brak (natChars start)) s) hbf' hnd' hcoll'
    constructor
    · intro x hx
      rcases List.mem_cons.mp hx with rfl | hx'
      · simp only [renumberFrom]
        apply renumberFrom_absence us' (start + 1) _ x hbu hbf' hcoll'
        · intro j h1 h2
          exact hcoll x (List.mem_cons_self _ _) j (by omega)
            (by simp only [List.length_cons]; omega)
        · rw [replaceAll_brak_master hbu hd hneud s hbu]
          rintro (⟨h1, _⟩ | ⟨h1, _, _⟩)
          · exact hneud h1
          · exact h1 rfl
      · exact ihA x hx'
    · intro i hi hocc
      cases i with
      | zero =>
        have hd_in : brak (natChars start) <:+:
            replaceAll (brak u) (brak (natChars start)) s := by
          rw [replaceAll_brak_master hbu hd hneud s hd]
          exact Or.inl ⟨rfl, Or.inl hocc⟩
        have hdnm : natChars start ∉ us' := by
          intro hmem
          exact hcoll (natChars start) (List.mem_cons_of_mem _ hmem) start le_rfl
            (by simp) rfl
        simp only [renumberFrom, Nat.add_zero]
        exact renumberFrom_presence us' (start + 1) _ (natChars start) hd hbf'
          hdnm hcoll' hd_in
      | succ i' =>
        have hi' : i' < us'.length := by
          simp only [List.length_cons] at hi; omega
        have hget : (u :: us').get ⟨i' + 1, hi⟩ = us'.get ⟨i', hi'⟩ := rfl
        have hbx : BFree (us'.get ⟨i', hi'⟩) :=
          hbf' _ (List.get_mem us' i' hi')
        have hin1 : brak (us'.get ⟨i', hi'⟩) <:+:
            replaceAll (brak u) (brak (natChars start)) s := by
          rw [replaceAll_brak_master hbu hd hneud s hbx]
          by_cases hxd : us'.get ⟨i', hi'⟩ = natChars start
          · exact Or.inl ⟨hxd, Or.inr (by rw [← hxd, ← hget]; exact hocc)⟩
          · refine Or.inr ⟨?_, hxd, by rw [← hget]; exact hocc⟩
            intro hxe
            exact hund (hxe ▸ List.get_mem us' i' hi')
        have hres := ihB i' hi' hin1
        simp only [renumberFrom]
        rw [show start + (i' + 1) = start + 1 + i' by omega]
        exact hres

/-- The appendix comprehension succeeds when every extracted id is registered,
and then produces exactly one line per extracted id, in order, numbering them
`k, k+1, ...` and citing the source the dictionary holds for that id. -/

theorem sourcesSectionGo_ok (sources : List SearchResultItem) :
    ∀ (us : List Chars) (k : Nat),
      (∀ u ∈ us, (lookupSource sources u).isSome = true) →
      ∃ lines : List Chars, sourcesSectionGo sources k us = .ok lines ∧
        List.Forall₂ (fun p line => ∃ s, lookupSource sources p.2 = some s ∧
            line = sourceLine p.1 s)
          (List.enumFrom k us) lines := by
  intro us
  induction us with
  | nil =>
    intro k _
    exact ⟨[], rfl, by simp [List.enumFrom]⟩
  | cons u us' ih =>
    intro k hsrc
    obtain ⟨s, hs⟩ := Option.isSome_iff_exists.mp (hsrc u (List.mem_cons_self _ _))
    obtain ⟨lines', h1, h2⟩ := ih (k + 1) (fun x hx => hsrc x (List.mem_cons_of_mem _ hx))
    refine ⟨sourceLine k s :: lines', ?_, ?_⟩
    · simp only [sourcesSectionGo, hs, h1]
    · simp only [List.enumFrom]
      exact List.Forall₂.cons ⟨s, hs, rfl⟩ h2

/-- C4 counterexample. The spec's own example ids `abc` and `def` are rejected
by `uuid.UUID(_, version=4)`, so on the spec's example report no marker is
renumbered and the Sources appendix is empty: `[abc]` survives verbatim and no
`[1]` appears.  Moreover, with a genuine uuid cited twice, the appendix lists
the same id twice (not "exactly once") while the body never contains `[2]`. -/

theorem C4_counterexample :
    extractUuids c4AbcReport = [] ∧
    write_report_post [srcAbc, srcDef] c4AbcReport =
      .ok (c4AbcReport ++ "\n\n## Sources\n\n".toList) ∧
    brak "abc".toList <:+: c4AbcReport ∧
    ¬ brak (natChars 1) <:+: (c4AbcReport ++ "\n\n## Sources\n\n".toList) ∧
    extractUuids c4DupReport = [uuidA, uuidA] ∧
    sourcesSectionGo [srcA] 1 (extractUuids c4DupReport) =
      .ok [sourceLine 1 srcA, sourceLine 2 srcA] ∧
    renumberBody (extractUuids c4DupReport) c4DupReport =
      "See [1] and again [1].".toList ∧
    ¬ brak (natChars 2) <:+: renumberBody (extractUuids c4DupReport) c4DupReport := by
  refine ⟨by decide, rfl, ?_, ?_, by decide, rfl, rfl, ?_⟩
  · exact (containsSub_iff _ _).mp (by decide)
  · intro h
    exact absurd ((containsSub_iff _ _).mpr h) (by decide)
  · intro h
    exact absurd ((containsSub_iff _ _).mpr h) (by decide)

/-- C4 (amended). `write_report` renumbers the bracketed markers of the ids
that `uuid.UUID(_, version=4)` accepts — not arbitrary opaque ids — into
`[1..N]` in first-appearance order, and the Sources appendix lists one line
per extracted id in that order, provided the extracted ids are pairwise
distinct, none collides with a replacement numeral, and each has a registered
source: every original `[uuid]` marker is gone from the renumbered body, the
marker `[i+1]` appears for the `i`-th id, and line `i` of the appendix cites
the source registered for the `i`-th id under number `i+1`. -/

theorem C4_citation_renumbering (sources : List SearchResultItem) (report : Chars)
    (hnd : (extractUuids report).Nodup)
    (hcoll : ∀ u ∈ extractUuids report, ∀ j, j < 1 + (extractUuids report).length →
      1 ≤ j → u ≠ natChars j)
    (hsrc : ∀ u ∈ extractUuids report, (lookupSource sources u).isSome = true) :
    ∃ lines : List Chars,
      sourcesSectionGo sources 1 (extractUuids report) = .ok lines ∧
      write_report_post sources report = .ok
        (renumberBody (extractUuids report) report ++ "\n\n## Sources\n\n".toList ++
          joinLines lines) ∧
      List.Forall₂ (fun p line => ∃ s, lookupSource sources p.2 = some s ∧
          line = sourceLine p.1 s)
        (List.enumFrom 1 (extractUuids report)) lines ∧
      (∀ u ∈ extractUuids report,
        ¬ brak u <:+: renumberBody (extractUuids report) report) ∧
      (∀ i, i < (extractUuids report).length →
        brak (natChars (1 + i)) <:+: renumberBody (extractUuids report) report) := by
  have hbf : ∀ u ∈ extractUuids report, BFree u := fun u hu =>
    isValidUUID_bfree (List.of_mem_filter hu)
  have hcoll' : ∀ u ∈ extractUuids report, ∀ j, 1 ≤ j →
      j < 1 + (extractUuids report).length → u ≠ natChars j :=
    fun u hu j h1 h2 => hcoll u hu j h2 h1
  obtain ⟨habs, hpres⟩ := renumberFrom_spec (extractUuids report) 1 report hbf hnd hcoll'
  obtain ⟨lines, hok, hfa⟩ := sourcesSectionGo_ok sources (extractUuids report) 1 hsrc
  refine ⟨lines, hok, ?_, hfa, habs, ?_⟩
  · simp [write_report_post, hok, renumberBody]
  · intro i hi
    have hmem : (extractUuids report).get ⟨i, hi⟩ ∈ findTokens report :=
      List.mem_of_mem_filter (List.get_mem _ i hi)
    exact hpres i hi (findTokens_occurs hmem)

theorem C4_witness :
    ∃ lines : List Chars,
      sourcesSectionGo c4Sources 1 (extractUuids c4Report) = .ok lines ∧
      write_report_post c4Sources c4Report = .ok
        (renumberBody (extractUuids c4Report) c4Report ++ "\n\n## Sources\n\n".toList ++
          joinLines lines) ∧
      List.Forall₂ (fun p line => ∃ s, lookupSource c4Sources p.2 = some s ∧
          line = sourceLine p.1 s)
        (List.enumFrom 1 (extractUuids c4Report)) lines ∧
      (∀ u ∈ extractUuids c4Report,
        ¬ brak u <:+: renumberBody (extractUuids c4Report) c4Report) ∧
      (∀ i, i < (extractUuids c4Report).length →
        brak (natChars (1 + i)) <:+: renumberBody (extractUuids c4Report) c4Report) :=
  C4_citation_renumbering c4Sources c4Report (by decide) (by decide) (by decide)

/-- C10 counterexample. The bracketed token `ab[<uuid>` (from the text
`[ab[<uuid>]`) is not a valid UUID, so by the claim it must be left unchanged
in the body; yet `str.replace` rewrites the `[<uuid>]` embedded inside it, so
the token's bracketed occurrence is destroyed by the renumbering pass. -/

theorem C10_counterexample :
    ("ab[".toList ++ uuidA) ∈ findTokens c10Report ∧
    isValidUUID ("ab[".toList ++ uuidA) = false ∧
    brak ("ab[".toList ++ uuidA) <:+: c10Report ∧
    ¬ brak ("ab[".toList ++ uuidA) <:+: renumberBody (extractUuids c10Report) c10Report := by
  refine ⟨by decide, by decide, ?_, ?_⟩
  · exact (containsSub_iff _ _).mp (by decide)
  · intro h
    exact absurd ((containsSub_iff _ _).mpr h) (by decide)

/-- C10 (amended). Only tokens accepted by `uuid.UUID(_, version=4)` are
extracted as citation ids; with no extracted id the report body is returned
verbatim (so `[1]`, `[TODO]`, ... stay untouched) with an empty appendix; and
a bracketed occurrence of an invalid *bracket-free* token distinct from every
extracted id and every replacement numeral survives the renumbering body pass
(the counterexample shows the bracket-free proviso is necessary). -/

theorem C10_marker_validity (sources : List SearchResultItem) (report t : Chars)
    (hbf : BFree t) (hnv : t ∉ extractUuids report)
    (hcollus : ∀ u ∈ extractUuids report, ∀ j, j < 1 + (extractUuids report).length →
      1 ≤ j → u ≠ natChars j) :
    (∀ tok ∈ extractUuids report, isValidUUID tok = true) ∧
    (extractUuids report = [] →
      write_report_post sources report = .ok (report ++ "\n\n## Sources\n\n".toList)) ∧
    (brak t <:+: report → brak t <:+: renumberBody (extractUuids report) report) := by
  refine ⟨fun tok htok => List.of_mem_filter htok, ?_, ?_⟩
  · intro h0
    simp [write_report_post, h0, sourcesSectionGo, renumberBody, renumberFrom, joinLines]
  · intro hocc
    exact renumberFrom_presence (extractUuids report) 1 report t hbf
      (fun u hu => isValidUUID_bfree (List.of_mem_filter hu)) hnv
      (fun u hu j h1 h2 => hcollus u hu j h2 h1) hocc

theorem C10_witness :
    brak "TODO".toList <:+: renumberBody (extractUuids c10WitnessReport) c10WitnessReport :=
  (C10_marker_validity [srcA] c10WitnessReport "TODO".toList ⟨by decide, by decide⟩
    (by decide) (by decide)).2.2 ((containsSub_iff _ _).mp (by decide))

end DeepResearch
